import Mathlib

/-!
Verification of the download-job service: job data model, SQLite-backed
durable store (`src/db/database.ts`), in-memory cache, the
`/v1/download/initiate` handler, the four-phase `processDownloadJob`
pipeline, and the status / SSE-subscribe endpoints (all from the main
server module).

Conventions of the embedding:
* byte buffers are `List Nat`;
* timestamps (`new Date()`) are modelled by a tick counter threaded
  through the run state, so `updatedAt` advances on every mutation;
* `createHash("sha256")....digest("hex")` is an abstract pure function
  `hashHex` supplied by the environment;
* S3 calls and SQLite writes are oracles in the environment: a fetch
  either yields bytes or throws with some message, the n-th durable
  write either succeeds or throws, the archive upload and the presign
  call each either succeed or throw.
-/

set_option autoImplicit false

namespace DownloadSvc

/-- Job status enum: "queued" | "processing" | "completed" | "failed". -/
inductive JobState where
  | queued
  | processing
  | completed
  | failed
deriving DecidableEq, Repr

/-- Check used by the SSE loop: `status === "completed" || status === "failed"`. -/
def JobState.isTerminal : JobState → Bool
  | .completed => true
  | .failed => true
  | _ => false

/-- In-memory job record (the `JobStatus` interface of the server module). -/
structure JobStatus where
  jobId : String
  status : JobState
  fileKeys : List String
  progress : Nat
  filesCompleted : Nat
  totalFiles : Nat
  downloadUrl : Option String := none
  error : Option String := none
  createdAt : Nat
  updatedAt : Nat
deriving DecidableEq, Repr

/-- Row of the `download_jobs` SQLite table (the `JobRecord` interface of
`src/db/database.ts`); `file_keys` is stored as a JSON array, modelled
directly as the list. -/
structure JobRecord where
  job_id : String
  status : JobState
  file_keys : List String
  progress : Nat
  files_completed : Nat
  total_files : Nat
  download_url : Option String
  error : Option String
  created_at : Nat
  updated_at : Nat
deriving DecidableEq, Repr

/-- The durable store: the rows of the `download_jobs` table. -/
abbrev Db := List JobRecord

/-- The optional-field argument of `dbOperations.updateJob`. -/
structure JobUpdates where
  status : Option JobState := none
  progress : Option Nat := none
  filesCompleted : Option Nat := none
  downloadUrl : Option String := none
  error : Option String := none
  updatedAt : Nat
deriving DecidableEq, Repr

/-- SELECT * FROM download_jobs WHERE job_id = ? (`dbOperations.getJob`,
before the row-to-status conversion). -/
def dbGetJob (db : Db) (jid : String) : Option JobRecord :=
  db.find? (fun r => r.job_id == jid)

/-- Convert the in-memory record to a row, as `dbOperations.insertJob`
serializes it (`downloadUrl || null`, `error || null`). -/
def jobStatusToRecord (j : JobStatus) : JobRecord :=
  { job_id := j.jobId
    status := j.status
    file_keys := j.fileKeys
    progress := j.progress
    files_completed := j.filesCompleted
    total_files := j.totalFiles
    download_url := j.downloadUrl
    error := j.error
    created_at := j.createdAt
    updated_at := j.updatedAt }

/-- INSERT INTO download_jobs ... (`dbOperations.insertJob`). -/
def dbInsertJob (db : Db) (j : JobStatus) : Db :=
  db ++ [jobStatusToRecord j]

/-- Merge semantics of `dbOperations.updateJob`: each given field replaces
the current one (`updates.x ?? current.x`), `updated_at` is always taken
from the update; `file_keys`, `total_files`, `created_at` are not touched
by the UPDATE statement. -/
def applyJobUpdates (r : JobRecord) (u : JobUpdates) : JobRecord :=
  { r with
    status := u.status.getD r.status
    progress := u.progress.getD r.progress
    files_completed := u.filesCompleted.getD r.files_completed
    download_url := match u.downloadUrl with
      | some v => some v
      | none => r.download_url
    error := match u.error with
      | some v => some v
      | none => r.error
    updated_at := u.updatedAt }

/-- UPDATE path of `dbOperations.updateJob`: reads the current row first and
returns silently when it is absent (`if (!current) return;`). -/
def dbUpdateJob (db : Db) (jid : String) (u : JobUpdates) : Db :=
  match dbGetJob db jid with
  | none => db
  | some _ => db.map fun r => if r.job_id == jid then applyJobUpdates r u else r

/-- Model of `record.download_url || undefined`: both SQL NULL and the empty
string become "unset". -/
def emptyToNone (v : Option String) : Option String :=
  match v with
  | some s => if s = "" then none else some s
  | none => none

/-- Row-to-status conversion `recordToJobStatus` of `src/db/database.ts`. -/
def recordToJobStatus (r : JobRecord) : JobStatus :=
  { jobId := r.job_id
    status := r.status
    fileKeys := r.file_keys
    progress := r.progress
    filesCompleted := r.files_completed
    totalFiles := r.total_files
    downloadUrl := emptyToNone r.download_url
    error := emptyToNone r.error
    createdAt := r.created_at
    updatedAt := r.updated_at }

/-- The in-memory cache `const jobs = new Map<string, JobStatus>()`. -/
abbrev Cache := List (String × JobStatus)

/-- Map.get. -/
def cacheGet (jobs : Cache) (jid : String) : Option JobStatus :=
  (jobs.find? (fun p => p.1 == jid)).map (fun p => p.2)

/-- Map.set: replace the entry when the key is present, append otherwise. -/
def cacheSet (jobs : Cache) (jid : String) (j : JobStatus) : Cache :=
  if (jobs.find? (fun p => p.1 == jid)).isSome then
    jobs.map (fun p => if p.1 == jid then (jid, j) else p)
  else
    jobs ++ [(jid, j)]

/-- Body of the 200 response of POST /v1/download/initiate. -/
structure InitiateResponse where
  jobId : String
  status : JobState
  totalFiles : Nat
  subscribeUrl : String
  statusUrl : String
deriving DecidableEq, Repr

/-- The `jobStatus` object built by the initiate handler. -/
def createdJob (jid : String) (validKeys : List String) (now : Nat) : JobStatus :=
  { jobId := jid
    status := .queued
    fileKeys := validKeys
    progress := 0
    filesCompleted := 0
    totalFiles := validKeys.length
    downloadUrl := none
    error := none
    createdAt := now
    updatedAt := now }

/-- Handler of POST /v1/download/initiate.  `headOk` is the oracle for the
per-key `HeadObjectCommand` against the `source` bucket: keys whose head
check throws are skipped (only warned about).  When no key survives, the
handler answers 400 ("No valid file keys found in source bucket"),
modelled as `none`.  Otherwise it builds the job record, puts it in the
in-memory map, launches the detached `processDownloadJob` task (modelled
separately by `runDownloadJob`), and returns at once.  Note the handler
body contains no `dbOperations.insertJob` call, so the durable store is
returned unchanged. -/
def downloadInitiate (headOk : String → Bool) (file_keys : List String)
    (jid : String) (now : Nat) (jobs : Cache) (db : Db) :
    Option InitiateResponse × Cache × Db :=
  let validKeys := file_keys.filter headOk
  if validKeys.length = 0 then
    (none, jobs, db)
  else
    (some
      { jobId := jid
        status := .queued
        totalFiles := validKeys.length
        subscribeUrl := "/v1/download/subscribe/" ++ jid
        statusUrl := "/v1/download/status/" ++ jid },
     cacheSet jobs jid (createdJob jid validKeys now),
     db)

/-- Math.round of the exact nonnegative rational num/den, i.e. the floor of
num/den + 1/2: the spec's `round(i/n * 25)` read as exact rational
arithmetic.  The source instead computes
`Math.round(((i + 1) / fileKeys.length) * 25)` in binary64 doubles — see
`jsRound25` — and the two disagree at some inputs (first at 29/50). -/
def roundHalfUp (num den : Nat) : Nat :=
  (2 * num + den) / (2 * den)

/-- Round q + r/den to the nearest integer, ties to even — the IEEE-754
default rounding used by binary64 division and multiplication. -/
def roundNearEven (q r den : Nat) : Nat :=
  if 2 * r < den then q
  else if den < 2 * r then q + 1
  else if q % 2 = 0 then q else q + 1

/-- Smallest s with b ≤ a * 2^s, found by doubling (the fuel argument only
bounds the recursion; fuel = b is always enough when 1 ≤ a). -/
def shiftSearch : Nat → Nat → Nat → Nat
  | 0, _, _ => 0
  | fuel + 1, a, b => if b ≤ a then 0 else shiftSearch fuel (2 * a) b + 1

/-- Scale of the binary64 significand of a/b for 1 ≤ a ≤ b: the unique p
with 2^52 * b ≤ a * 2^p < 2^53 * b. -/
def flDivScale (a b : Nat) : Nat :=
  52 + shiftSearch b a b

/-- Significand of the binary64 value nearest to a/b: that value is
flDivMant a b / 2 ^ flDivScale a b. -/
def flDivMant (a b : Nat) : Nat :=
  roundNearEven (a * 2 ^ flDivScale a b / b) (a * 2 ^ flDivScale a b % b) b

/-- Renormalization shift bringing 25 * m back to 53 significant bits. -/
def mul25Shift (m : Nat) : Nat :=
  if 25 * m < 2 ^ 57 then 4 else 5

/-- Significand of the binary64 value nearest to 25 * (m / 2^p): that value
is flMul25Mant m / 2 ^ (p - mul25Shift m). -/
def flMul25Mant (m : Nat) : Nat :=
  roundNearEven (25 * m / 2 ^ mul25Shift m) (25 * m % 2 ^ mul25Shift m)
    (2 ^ mul25Shift m)

/-- Math.round((a / b) * 25) as the source evaluates it in JavaScript: the
quotient a / b and its product with 25 are each rounded to the nearest
binary64 value (round to nearest, ties to even), and Math.round then takes
the nearest integer to the exact value of the resulting double, halves
toward +∞.  At a = 29, b = 50 the double product is just below 14.5 and
this yields 14, where the exact rational `roundHalfUp` yields 15. -/
def jsRound25 (a b : Nat) : Nat :=
  (flMul25Mant (flDivMant a b) +
      2 ^ (flDivScale a b - mul25Shift (flDivMant a b) - 1)) /
    2 ^ (flDivScale a b - mul25Shift (flDivMant a b))

/-- One entry of the pipeline-local `tempFiles` array: key, raw bytes, and
the checksum captured at Collect time. -/
structure CollectedFile where
  key : String
  data : List Nat
  checksum : String
deriving DecidableEq, Repr

/-- Archive built by `archiver("zip", ...)`: one entry per collected file,
named by the original key (compression is abstracted away). -/
def buildArchive (tempFiles : List CollectedFile) : List (String × List Nat) :=
  tempFiles.map fun f => (f.key, f.data)

/-- External oracles of one pipeline run. -/
structure Env where
  /-- GetObjectCommand against the `source` bucket: bytes of the object, or
  the message of the thrown error (missing body included). -/
  fetchObject : String → Except String (List Nat)
  /-- sha256 hex digest (`calculateChecksum`), abstracted as a pure function. -/
  hashHex : List Nat → String
  /-- whether the n-th `dbOperations.updateJob` call of this run succeeds;
  `false` means the SQLite write throws. -/
  dbWriteOk : Nat → Bool
  /-- message of the SQLite error when a durable write throws. -/
  dbErrorMessage : String
  /-- whether the PutObjectCommand to the downloads bucket succeeds. -/
  putOk : Bool
  /-- message of the thrown upload error. -/
  putErrorMessage : String
  /-- result of `getSignedUrl` (the presigned URL) or its failure message. -/
  presign : Except String String

/-- State threaded through one `processDownloadJob` run.  Besides the job,
the cache entry it mutates in place, and the durable store, it records the
observable trace: every value the job record takes (`history`), every value
assigned to `job.progress` (`progressWrites`), every object written to the
downloads bucket (`uploads`), and how often the integrity-mismatch branch
fired (`integrityFailures`). -/
structure RunState where
  job : JobStatus
  db : Db
  history : List JobStatus
  progressWrites : List Nat
  uploads : List (String × List (String × List Nat))
  integrityFailures : Nat
  writeIdx : Nat
  tempFiles : List CollectedFile
  clock : Nat
deriving Repr

/-- The job value after a mutation block: the given field changes plus
`job.updatedAt = new Date()`. -/
def nextJob (s : RunState) (f : JobStatus → JobStatus) : JobStatus :=
  { f s.job with updatedAt := s.clock }

/-- Apply one synchronous mutation block to the cached job record,
recording the new snapshot in the history and any progress assignment the
block makes. -/
def mutateJob (s : RunState) (f : JobStatus → JobStatus) (pw : List Nat) : RunState :=
  let j := nextJob s f
  { s with
    job := j
    history := s.history ++ [j]
    progressWrites := s.progressWrites ++ pw
    clock := s.clock + 1 }

/-- One `dbOperations.updateJob` call: on success the merge is applied to
the durable store, on failure (the SQLite write throws) the store is left
alone; the Bool reports success. -/
def durableWrite (env : Env) (s : RunState) (u : JobUpdates) : RunState × Bool :=
  if env.dbWriteOk s.writeIdx then
    ({ s with db := dbUpdateJob s.db s.job.jobId u, writeIdx := s.writeIdx + 1 }, true)
  else
    ({ s with writeIdx := s.writeIdx + 1 }, false)

/-- A `dbOperations.updateJob` call wrapped in try/catch: a failure is only
logged (`console.error`), never propagated. -/
def durableWriteCaught (env : Env) (s : RunState) (u : JobUpdates) : RunState :=
  (durableWrite env s u).1

/-- Success path of one Collect-phase iteration for `fileKeys[i]` (n is
`fileKeys.length`): capture the checksum of the fetched bytes, push onto
`tempFiles`, bump `filesCompleted` and `progress`, and persist
(protected). -/
def collectStep (env : Env) (n i : Nat) (key : String) (fileData : List Nat)
    (s : RunState) : RunState :=
  let p := jsRound25 (i + 1) n
  let s := { s with
    tempFiles := s.tempFiles ++
      [{ key := key, data := fileData, checksum := env.hashHex fileData }] }
  let s := mutateJob s
    (fun j => { j with filesCompleted := i + 1, progress := p }) [p]
  durableWriteCaught env s
    { progress := some p, filesCompleted := some (i + 1),
      updatedAt := s.job.updatedAt }

/-- Body of one Collect-phase loop iteration: fetch the object, reject
empty bodies, then `collectStep`.  A failure is rewrapped by the
iteration's catch as "Failed to collect file KEY: ...". -/
def collectOne (env : Env) (n i : Nat) (key : String) (s : RunState) :
    Except (String × RunState) RunState :=
  match env.fetchObject key with
  | .error m => .error ("Failed to collect file " ++ key ++ ": " ++ m, s)
  | .ok fileData =>
    if fileData.length = 0 then
      .error ("Failed to collect file " ++ key ++ ": " ++
        ("File " ++ key ++ " is empty"), s)
    else
      .ok (collectStep env n i key fileData s)

/-- Phase 1 (Collect): the `for (let i = 0; ...)` loop over the keys. -/
def collectFiles (env : Env) (n : Nat) :
    List String → Nat → RunState → Except (String × RunState) RunState
  | [], _, s => .ok s
  | key :: rest, i, s =>
    match collectOne env n i key s with
    | .error e => .error e
    | .ok s' => collectFiles env n rest (i + 1) s'

/-- Phase 2 integrity loop: recompute each checksum and compare with the one
captured at Collect time; a mismatch throws naming the key.  The checksum
function used here is a parameter so the branch can be analyzed; the code
itself recomputes with the same `calculateChecksum` used at Collect, which
is the instantiation taken by `processDownloadJob`. -/
def verifyFiles (recompute : List Nat → String) (s : RunState) :
    List CollectedFile → Except (String × RunState) RunState
  | [] => .ok s
  | f :: rest =>
    if recompute f.data = f.checksum then
      verifyFiles recompute s rest
    else
      .error ("Integrity check failed for file " ++ f.key,
        { s with integrityFailures := s.integrityFailures + 1 })

/-- The progress-30 and progress-50 checkpoints: assign the fixed progress
value, then persist with a bare `dbOperations.updateJob` call — these two
call sites have no try/catch, so a durable-write failure escapes into the
pipeline's catch. -/
def writeCheckpoint (env : Env) (p : Nat) (s : RunState) :
    Except (String × RunState) RunState :=
  let s := mutateJob s (fun j => { j with progress := p }) [p]
  match durableWrite env s { progress := some p, updatedAt := s.job.updatedAt } with
  | (s', true) => .ok s'
  | (s', false) => .error (env.dbErrorMessage, s')

/-- Success path of Phase 3: record the PutObjectCommand of the archive
under "JOBID.zip", then progress 75 with a protected persist. -/
def uploadStep (env : Env) (s : RunState) : RunState :=
  let s := { s with
    uploads := s.uploads ++ [(s.job.jobId ++ ".zip", buildArchive s.tempFiles)] }
  let s := mutateJob s (fun j => { j with progress := 75 }) [75]
  durableWriteCaught env s
    { progress := some 75, updatedAt := s.job.updatedAt }

/-- Phase 3 (Upload): PutObjectCommand of the archive into the downloads
bucket; a throwing put aborts the phase. -/
def uploadArchive (env : Env) (s : RunState) :
    Except (String × RunState) RunState :=
  if env.putOk then
    .ok (uploadStep env s)
  else
    .error (env.putErrorMessage, s)

/-- Success path of Phase 4: the terminal mutation `status = completed,
progress = 100, downloadUrl`, persisted with a protected write. -/
def completeStep (env : Env) (url : String) (s : RunState) : RunState :=
  let s := mutateJob s
    (fun j => { j with status := .completed, progress := 100,
                       downloadUrl := some url }) [100]
  durableWriteCaught env s
    { status := some JobState.completed, progress := some 100,
      downloadUrl := some url, updatedAt := s.job.updatedAt }

/-- Phase 4 (Publish): presign the uploaded object, then complete the job;
a throwing presign call aborts the phase. -/
def publishResult (env : Env) (s : RunState) :
    Except (String × RunState) RunState :=
  match env.presign with
  | .error m => .error (m, s)
  | .ok url => .ok (completeStep env url s)

/-- The try-block of `processDownloadJob`: Collect, Verify (with checkpoint
30), Archive finalize (checkpoint 50), Upload (75), Publish (100).  The
in-memory archive build between the two checkpoints is pure and cannot
fail in the model. -/
def pipelineTry (recompute : List Nat → String) (env : Env)
    (fileKeys : List String) (s : RunState) :
    Except (String × RunState) RunState :=
  match collectFiles env fileKeys.length fileKeys 0 s with
  | .error e => .error e
  | .ok s =>
    match verifyFiles recompute s s.tempFiles with
    | .error e => .error e
    | .ok s =>
      match writeCheckpoint env 30 s with
      | .error e => .error e
      | .ok s =>
        match writeCheckpoint env 50 s with
        | .error e => .error e
        | .ok s =>
          match uploadArchive env s with
          | .error e => .error e
          | .ok s => publishResult env s

/-- `processDownloadJob`, generalized over the checksum function used at the
Verify phase: mark the job processing (protected persist), run the phases;
on any failure the catch marks the job failed with the captured message
(protected persist) and rethrows — the returned Option is the rethrown
message.  The finally-block drops the collected bytes. -/
def processDownloadJobWith (recompute : List Nat → String) (env : Env)
    (fileKeys : List String) (s : RunState) : RunState × Option String :=
  let s := mutateJob s (fun j => { j with status := .processing }) []
  let s := durableWriteCaught env s
    { status := some JobState.processing, updatedAt := s.job.updatedAt }
  match pipelineTry recompute env fileKeys s with
  | .ok s => ({ s with tempFiles := [] }, none)
  | .error (m, s) =>
    let s := mutateJob s
      (fun j => { j with status := .failed, error := some m }) []
    let s := durableWriteCaught env s
      { status := some JobState.failed, error := some m,
        updatedAt := s.job.updatedAt }
    ({ s with tempFiles := [] }, some m)

/-- `processDownloadJob` as written: both checksum computations use the same
`calculateChecksum`. -/
def processDownloadJob (env : Env) (fileKeys : List String) (s : RunState) :
    RunState × Option String :=
  processDownloadJobWith env.hashHex env fileKeys s

/-- Run state at the moment the detached task starts: the job the initiate
handler just built and put into the map. -/
def initialRunState (jid : String) (keys : List String) (db : Db) (now : Nat) :
    RunState :=
  let j := createdJob jid keys now
  { job := j
    db := db
    history := [j]
    progressWrites := []
    uploads := []
    integrityFailures := 0
    writeIdx := 0
    tempFiles := []
    clock := now + 1 }

/-- A whole detached run, generalized over the Verify-phase checksum
function: `processDownloadJob` plus the `.catch` attached at the launch
site, which marks the job failed once more (same message) when the
pipeline rethrows. -/
def runDownloadJobWith (recompute : List Nat → String) (env : Env)
    (keys : List String) (jid : String) (db : Db) (now : Nat) : RunState :=
  match processDownloadJobWith recompute env keys (initialRunState jid keys db now) with
  | (s, none) => s
  | (s, some m) =>
    let s := mutateJob s
      (fun j => { j with status := .failed, error := some m }) []
    durableWriteCaught env s
      { status := some JobState.failed, error := some m,
        updatedAt := s.job.updatedAt }

/-- A whole detached run as the code executes it. -/
def runDownloadJob (env : Env) (keys : List String) (jid : String)
    (db : Db) (now : Nat) : RunState :=
  runDownloadJobWith env.hashHex env keys jid db now

/-- JSON body of GET /v1/download/status/:jobId. -/
structure StatusResponse where
  jobId : String
  status : JobState
  progress : Nat
  filesCompleted : Nat
  totalFiles : Nat
  downloadUrl : Option String
  error : Option String
  createdAt : Nat
  updatedAt : Nat
deriving DecidableEq, Repr

/-- The snapshot the status endpoint serializes from a cached job. -/
def mkStatusResponse (job : JobStatus) : StatusResponse :=
  { jobId := job.jobId
    status := job.status
    progress := job.progress
    filesCompleted := job.filesCompleted
    totalFiles := job.totalFiles
    downloadUrl := job.downloadUrl
    error := job.error
    createdAt := job.createdAt
    updatedAt := job.updatedAt }

/-- Handler of GET /v1/download/status/:jobId: `jobs.get(jobId)` on the
in-memory map only; `none` models the 404 "Job not found" answer. -/
def downloadStatus (jobs : Cache) (jid : String) : Option StatusResponse :=
  (cacheGet jobs jid).map mkStatusResponse

/-- One server-sent event; absent payload fields are `none` (the initial
snapshot event carries neither `downloadUrl` nor `error`). -/
structure SseEvent where
  event : String
  jobId : Option String := none
  status : Option JobState := none
  progress : Option Nat := none
  filesCompleted : Option Nat := none
  totalFiles : Option Nat := none
  downloadUrl : Option String := none
  error : Option String := none
deriving DecidableEq, Repr

/-- Attach-time lookup of GET /v1/download/subscribe/:jobId: memory cache
first, then SQLite, populating the cache on a durable hit. -/
def subscribeLookup (jobs : Cache) (db : Db) (jid : String) :
    Option JobStatus × Cache :=
  match cacheGet jobs jid with
  | some job => (some job, jobs)
  | none =>
    match dbGetJob db jid with
    | some r => (some (recordToJobStatus r), cacheSet jobs jid (recordToJobStatus r))
    | none => (none, jobs)

/-- Events written at attach time, plus the (lastProgress, lastStatus) pair
the polling loop starts from (`none` when the channel closed at once
because the job was unknown). -/
def subscribeAttach (jobs : Cache) (db : Db) (jid : String) :
    List SseEvent × Cache × Option (Nat × JobState) :=
  match subscribeLookup jobs db jid with
  | (none, jobs') =>
    ([{ event := "error", error := some "Job not found" }], jobs', none)
  | (some job, jobs') =>
    ([{ event := "progress"
        jobId := some job.jobId
        status := some job.status
        progress := some job.progress
        filesCompleted := some job.filesCompleted
        totalFiles := some job.totalFiles }],
     jobs', some (job.progress, job.status))

/-- One tick of the per-second polling interval: re-read the cache, emit a
snapshot only when progress or status changed since the last emitted
values, and close once a terminal status was emitted (or when the cache no
longer knows the id).  The triple is (event emitted, new last values,
interval cleared). -/
def subscribePollTick (jobs : Cache) (jid : String)
    (lastProgress : Nat) (lastStatus : JobState) :
    Option SseEvent × Option (Nat × JobState) × Bool :=
  match cacheGet jobs jid with
  | none => (none, none, true)
  | some cur =>
    if cur.progress ≠ lastProgress ∨ cur.status ≠ lastStatus then
      (some
        { event :=
            if cur.status = .completed then "complete"
            else if cur.status = .failed then "error"
            else "progress"
          jobId := some cur.jobId
          status := some cur.status
          progress := some cur.progress
          filesCompleted := some cur.filesCompleted
          totalFiles := some cur.totalFiles
          downloadUrl := cur.downloadUrl
          error := cur.error },
       some (cur.progress, cur.status),
       cur.status.isTerminal)
    else
      (none, some (lastProgress, lastStatus), false)

/-- Pairwise check along the observed history. -/
def chainCheck (f : JobStatus → JobStatus → Bool) : List JobStatus → Bool
  | a :: b :: rest => f a b && chainCheck f (b :: rest)
  | _ => true

/-- One history step respects monotonicity: progress and filesCompleted
never decrease and totalFiles never changes. -/
def monoStep (a b : JobStatus) : Bool :=
  decide (a.progress ≤ b.progress) &&
  decide (a.filesCompleted ≤ b.filesCompleted) &&
  decide (a.totalFiles = b.totalFiles)

/-- Progress/counter monotonicity along a whole history. -/
def monoHistory (l : List JobStatus) : Bool :=
  chainCheck monoStep l

/-- filesCompleted stays within totalFiles in every state. -/
def countersBounded (l : List JobStatus) : Bool :=
  l.all fun a => decide (a.filesCompleted ≤ a.totalFiles)

/-- Result exclusivity for one state: neither resultUrl nor error before a
terminal status, exactly the matching one of them afterwards. -/
def stateExclusive (a : JobStatus) : Bool :=
  match a.status with
  | .queued => a.downloadUrl.isNone && a.error.isNone
  | .processing => a.downloadUrl.isNone && a.error.isNone
  | .completed => a.downloadUrl.isSome && a.error.isNone
  | .failed => a.error.isSome && a.downloadUrl.isNone

/-- Result exclusivity along a whole history. -/
def exclusiveHistory (l : List JobStatus) : Bool :=
  l.all stateExclusive

/-- One history step never leaves a terminal status. -/
def terminalStep (a b : JobStatus) : Bool :=
  !a.status.isTerminal || decide (a.status = b.status)

/-- Terminal stability along a whole history. -/
def terminalStable (l : List JobStatus) : Bool :=
  chainCheck terminalStep l

/-- First Collect-phase failure under the given oracles: the earliest key
whose fetch throws (with that message) or yields an empty body. -/
def collectFailsAt (env : Env) : List String → Option (String × String)
  | [] => none
  | k :: rest =>
    match env.fetchObject k with
    | .error m => some (k, m)
    | .ok data =>
      if data.length = 0 then some (k, "File " ++ k ++ " is empty")
      else collectFailsAt env rest

/-! Projection lemmas for the state-threading helpers. -/

@[simp] theorem mutateJob_job (s : RunState) (f : JobStatus → JobStatus) (pw : List Nat) :
    (mutateJob s f pw).job = nextJob s f := rfl

@[simp] theorem mutateJob_history (s : RunState) (f : JobStatus → JobStatus) (pw : List Nat) :
    (mutateJob s f pw).history = s.history ++ [nextJob s f] := rfl

@[simp] theorem mutateJob_progressWrites (s : RunState) (f : JobStatus → JobStatus) (pw : List Nat) :
    (mutateJob s f pw).progressWrites = s.progressWrites ++ pw := rfl

@[simp] theorem mutateJob_uploads (s : RunState) (f : JobStatus → JobStatus) (pw : List Nat) :
    (mutateJob s f pw).uploads = s.uploads := rfl

@[simp] theorem mutateJob_integrityFailures (s : RunState) (f : JobStatus → JobStatus) (pw : List Nat) :
    (mutateJob s f pw).integrityFailures = s.integrityFailures := rfl

@[simp] theorem mutateJob_tempFiles (s : RunState) (f : JobStatus → JobStatus) (pw : List Nat) :
    (mutateJob s f pw).tempFiles = s.tempFiles := rfl

@[simp] theorem mutateJob_writeIdx (s : RunState) (f : JobStatus → JobStatus) (pw : List Nat) :
    (mutateJob s f pw).writeIdx = s.writeIdx := rfl

@[simp] theorem durableWriteCaught_job (env : Env) (s : RunState) (u : JobUpdates) :
    (durableWriteCaught env s u).job = s.job := by
  unfold durableWriteCaught durableWrite; split <;> rfl

@[simp] theorem durableWriteCaught_history (env : Env) (s : RunState) (u : JobUpdates) :
    (durableWriteCaught env s u).history = s.history := by
  unfold durableWriteCaught durableWrite; split <;> rfl

@[simp] theorem durableWriteCaught_progressWrites (env : Env) (s : RunState) (u : JobUpdates) :
    (durableWriteCaught env s u).progressWrites = s.progressWrites := by
  unfold durableWriteCaught durableWrite; split <;> rfl

@[simp] theorem durableWriteCaught_uploads (env : Env) (s : RunState) (u : JobUpdates) :
    (durableWriteCaught env s u).uploads = s.uploads := by
  unfold durableWriteCaught durableWrite; split <;> rfl

@[simp] theorem durableWriteCaught_integrityFailures (env : Env) (s : RunState) (u : JobUpdates) :
    (durableWriteCaught env s u).integrityFailures = s.integrityFailures := by
  unfold durableWriteCaught durableWrite; split <;> rfl

@[simp] theorem durableWriteCaught_tempFiles (env : Env) (s : RunState) (u : JobUpdates) :
    (durableWriteCaught env s u).tempFiles = s.tempFiles := by
  unfold durableWriteCaught durableWrite; split <;> rfl

/-! Arithmetic facts about the Collect-phase progress formula: the binary64
rounding steps of jsRound25 are monotone and keep the result within 25. -/

theorem le_roundNearEven (q r den : Nat) : q ≤ roundNearEven q r den := by
  unfold roundNearEven; split_ifs <;> omega

theorem roundNearEven_le (q r den : Nat) : roundNearEven q r den ≤ q + 1 := by
  unfold roundNearEven; split_ifs <;> omega

theorem div_le_div_cross {x1 d1 x2 d2 : Nat} (hd1 : 0 < d1) (hd2 : 0 < d2)
    (h : x1 * d2 ≤ x2 * d1) : x1 / d1 ≤ x2 / d2 := by
  rw [Nat.le_div_iff_mul_le hd2]
  have h2 : x1 / d1 * d1 * d2 ≤ x2 * d1 :=
    le_trans (Nat.mul_le_mul (Nat.div_mul_le_self x1 d1) le_rfl) h
  have h3 : x1 / d1 * d2 * d1 ≤ x2 * d1 := by
    rw [mul_right_comm] at h2; exact h2
  exact Nat.le_of_mul_le_mul_right h3 hd1

theorem roundNearEven_mono_cross {q r1 d1 r2 d2 : Nat}
    (hd1 : 0 < d1) (hd2 : 0 < d2) (hr : r1 * d2 ≤ r2 * d1) :
    roundNearEven q r1 d1 ≤ roundNearEven q r2 d2 := by
  have hrr : 2 * r1 * d2 ≤ 2 * r2 * d1 := by
    calc 2 * r1 * d2 = 2 * (r1 * d2) := by ring
      _ ≤ 2 * (r2 * d1) := Nat.mul_le_mul_left 2 hr
      _ = 2 * r2 * d1 := by ring
  rcases Nat.lt_trichotomy (2 * r1) d1 with hA | hA | hA
  · have e1 : roundNearEven q r1 d1 = q := by
      unfold roundNearEven; rw [if_pos hA]
    rw [e1]; exact le_roundNearEven q r2 d2
  · by_cases hq : q % 2 = 0
    · have e1 : roundNearEven q r1 d1 = q := by
        unfold roundNearEven
        rw [if_neg (by omega), if_neg (by omega), if_pos hq]
      rw [e1]; exact le_roundNearEven q r2 d2
    · have e1 : roundNearEven q r1 d1 = q + 1 := by
        unfold roundNearEven
        rw [if_neg (by omega), if_neg (by omega), if_neg hq]
      rw [e1]
      have hle : d2 * d1 ≤ 2 * r2 * d1 := by
        calc d2 * d1 = 2 * r1 * d2 := by rw [← hA]; ring
          _ ≤ 2 * r2 * d1 := hrr
      have hle2 : d2 ≤ 2 * r2 := Nat.le_of_mul_le_mul_right hle hd1
      rcases Nat.lt_or_ge d2 (2 * r2) with hlt | hge
      · have e2 : roundNearEven q r2 d2 = q + 1 := by
          unfold roundNearEven; rw [if_neg (by omega), if_pos hlt]
        rw [e2]
      · have e2 : roundNearEven q r2 d2 = q + 1 := by
          unfold roundNearEven
          rw [if_neg (by omega), if_neg (by omega), if_neg hq]
        rw [e2]
  · have e1 : roundNearEven q r1 d1 = q + 1 := by
      unfold roundNearEven; rw [if_neg (by omega), if_pos hA]
    rw [e1]
    have h1 : d1 * d2 < 2 * r1 * d2 := Nat.mul_lt_mul_of_lt_of_le hA le_rfl hd2
    have h2 : d1 * d2 < 2 * r2 * d1 := lt_of_lt_of_le h1 hrr
    have h3 : d2 * d1 < 2 * r2 * d1 := by rw [mul_comm d2 d1]; exact h2
    have h4 : d2 < 2 * r2 := Nat.lt_of_mul_lt_mul_right h3
    have e2 : roundNearEven q r2 d2 = q + 1 := by
      unfold roundNearEven; rw [if_neg (by omega), if_pos h4]
    rw [e2]

theorem roundNearEven_mono_val {q1 r1 d1 q2 r2 d2 : Nat}
    (hd1 : 0 < d1) (hd2 : 0 < d2)
    (h : q1 < q2 ∨ (q1 = q2 ∧ r1 * d2 ≤ r2 * d1)) :
    roundNearEven q1 r1 d1 ≤ roundNearEven q2 r2 d2 := by
  rcases h with h | ⟨rfl, hr⟩
  · exact le_trans (roundNearEven_le q1 r1 d1)
      (le_trans h (le_roundNearEven q2 r2 d2))
  · exact roundNearEven_mono_cross hd1 hd2 hr

theorem divmod_lex {x1 d1 x2 d2 : Nat} (hd1 : 0 < d1) (hd2 : 0 < d2)
    (h : x1 * d2 ≤ x2 * d1) :
    x1 / d1 < x2 / d2 ∨ (x1 / d1 = x2 / d2 ∧ x1 % d1 * d2 ≤ x2 % d2 * d1) := by
  have hq : x1 / d1 ≤ x2 / d2 := div_le_div_cross hd1 hd2 h
  rcases Nat.lt_or_ge (x1 / d1) (x2 / d2) with hlt | hge
  · exact .inl hlt
  · have heq : x1 / d1 = x2 / d2 := le_antisymm hq hge
    refine .inr ⟨heq, ?_⟩
    have hx1 : d1 * (x1 / d1) + x1 % d1 = x1 := Nat.div_add_mod x1 d1
    have hx2 : d2 * (x2 / d2) + x2 % d2 = x2 := Nat.div_add_mod x2 d2
    have h' : d1 * (x1 / d1) * d2 + x1 % d1 * d2 ≤
        d2 * (x2 / d2) * d1 + x2 % d2 * d1 := by
      calc d1 * (x1 / d1) * d2 + x1 % d1 * d2
          = (d1 * (x1 / d1) + x1 % d1) * d2 := by ring
        _ = x1 * d2 := by rw [hx1]
        _ ≤ x2 * d1 := h
        _ = (d2 * (x2 / d2) + x2 % d2) * d1 := by rw [hx2]
        _ = d2 * (x2 / d2) * d1 + x2 % d2 * d1 := by ring
    have hcomm : d1 * (x1 / d1) * d2 = d2 * (x2 / d2) * d1 := by
      rw [heq]; ring
    rw [hcomm] at h'
    exact le_of_add_le_add_left h'

theorem roundNearEven_div_mono {x1 d1 x2 d2 : Nat} (hd1 : 0 < d1) (hd2 : 0 < d2)
    (h : x1 * d2 ≤ x2 * d1) :
    roundNearEven (x1 / d1) (x1 % d1) d1 ≤ roundNearEven (x2 / d2) (x2 % d2) d2 :=
  roundNearEven_mono_val hd1 hd2 (divmod_lex hd1 hd2 h)

theorem shiftSearch_le : ∀ (fuel a b : Nat), b ≤ a * 2 ^ fuel →
    b ≤ a * 2 ^ shiftSearch fuel a b
  | 0, _, _, h => h
  | fuel + 1, a, b, h => by
    unfold shiftSearch
    split_ifs with hba
    · simpa using hba
    · have hrec := shiftSearch_le fuel (2 * a) b (by
        calc b ≤ a * 2 ^ (fuel + 1) := h
          _ = 2 * a * 2 ^ fuel := by rw [pow_succ]; ring)
      calc b ≤ 2 * a * 2 ^ shiftSearch fuel (2 * a) b := hrec
        _ = a * 2 ^ (shiftSearch fuel (2 * a) b + 1) := by rw [pow_succ]; ring

theorem shiftSearch_lt : ∀ (fuel a b : Nat), a < 2 * b →
    a * 2 ^ shiftSearch fuel a b < 2 * b
  | 0, a, b, h => by simpa [shiftSearch] using h
  | fuel + 1, a, b, h => by
    unfold shiftSearch
    split_ifs with hba
    · simpa using h
    · have hrec := shiftSearch_lt fuel (2 * a) b (by omega)
      calc a * 2 ^ (shiftSearch fuel (2 * a) b + 1)
          = 2 * a * 2 ^ shiftSearch fuel (2 * a) b := by rw [pow_succ]; ring
        _ < 2 * b := hrec

theorem flDivScale_spec {a b : Nat} (ha : 1 ≤ a) (hab : a ≤ b) :
    2 ^ 52 * b ≤ a * 2 ^ flDivScale a b ∧
    a * 2 ^ flDivScale a b < 2 ^ 53 * b := by
  have hfuel : b ≤ a * 2 ^ b := by
    calc b ≤ 2 ^ b := le_of_lt (Nat.lt_two_pow b)
      _ = 1 * 2 ^ b := (one_mul _).symm
      _ ≤ a * 2 ^ b := Nat.mul_le_mul_right _ ha
  have hlo := shiftSearch_le b a b hfuel
  have hhi := shiftSearch_lt b a b (by omega)
  constructor
  · unfold flDivScale
    calc 2 ^ 52 * b ≤ 2 ^ 52 * (a * 2 ^ shiftSearch b a b) :=
        Nat.mul_le_mul_left _ hlo
      _ = a * 2 ^ (52 + shiftSearch b a b) := by rw [pow_add]; ring
  · unfold flDivScale
    calc a * 2 ^ (52 + shiftSearch b a b)
        = 2 ^ 52 * (a * 2 ^ shiftSearch b a b) := by rw [pow_add]; ring
      _ < 2 ^ 52 * (2 * b) := mul_lt_mul_of_pos_left hhi (by positivity)
      _ = 2 ^ 53 * b := by ring

theorem flDivScale_ge (a b : Nat) : 52 ≤ flDivScale a b := by
  unfold flDivScale; omega

theorem flDivScale_self {a : Nat} (ha : 1 ≤ a) : flDivScale a a = 52 := by
  unfold flDivScale
  obtain ⟨f, rfl⟩ : ∃ f, a = f + 1 := ⟨a - 1, by omega⟩
  unfold shiftSearch
  rw [if_pos (by omega)]

theorem flDivMant_self {a : Nat} (ha : 1 ≤ a) : flDivMant a a = 2 ^ 52 := by
  unfold flDivMant
  rw [flDivScale_self ha, Nat.mul_div_cancel_left _ (by omega),
    Nat.mul_mod_right]
  unfold roundNearEven
  rw [if_pos (by omega)]

theorem flDivScale_ge_53 {a b : Nat} (hlt : a < b) :
    53 ≤ flDivScale a b := by
  unfold flDivScale
  obtain ⟨f, rfl⟩ : ∃ f, b = f + 1 := ⟨b - 1, by omega⟩
  unfold shiftSearch
  rw [if_neg (by omega)]
  omega

theorem flDivMant_spec {a b : Nat} (ha : 1 ≤ a) (hab : a ≤ b) :
    2 ^ 52 ≤ flDivMant a b ∧ flDivMant a b ≤ 2 ^ 53 ∧
    flDivMant a b ≤ 2 ^ flDivScale a b := by
  have hb : 0 < b := by omega
  obtain ⟨hlo, hhi⟩ := flDivScale_spec ha hab
  have hqlo : 2 ^ 52 ≤ a * 2 ^ flDivScale a b / b := by
    rw [Nat.le_div_iff_mul_le hb]; exact hlo
  have hqhi : a * 2 ^ flDivScale a b / b < 2 ^ 53 := by
    rw [Nat.div_lt_iff_lt_mul hb]; exact hhi
  refine ⟨le_trans hqlo (le_roundNearEven _ _ _),
    le_trans (roundNearEven_le _ _ _) (by omega), ?_⟩
  rcases Nat.lt_or_ge a b with hlt | hge
  · calc flDivMant a b ≤ 2 ^ 53 :=
        le_trans (roundNearEven_le _ _ _) (by omega)
      _ ≤ 2 ^ flDivScale a b :=
        Nat.pow_le_pow_right (by omega) (flDivScale_ge_53 hlt)
  · have heq : a = b := le_antisymm hab hge
    subst heq
    rw [flDivMant_self ha, flDivScale_self ha]

theorem flDiv_value_mono {a a' b : Nat} (ha : 1 ≤ a) (haa : a ≤ a')
    (hab : a' ≤ b) :
    flDivMant a b * 2 ^ flDivScale a' b ≤ flDivMant a' b * 2 ^ flDivScale a b := by
  have ha' : 1 ≤ a' := le_trans ha haa
  have hab1 : a ≤ b := le_trans haa hab
  have hb : 0 < b := by omega
  obtain ⟨hlo, hhi⟩ := flDivScale_spec ha hab1
  obtain ⟨hlo', hhi'⟩ := flDivScale_spec ha' hab
  obtain ⟨hm1lo, hm1hi, _⟩ := flDivMant_spec ha hab1
  obtain ⟨hm1lo', hm1hi', _⟩ := flDivMant_spec ha' hab
  have hpp : flDivScale a' b ≤ flDivScale a b := by
    by_contra hcon
    push_neg at hcon
    have h1 : a * 2 ^ (flDivScale a b + 1) ≤ a' * 2 ^ flDivScale a' b :=
      Nat.mul_le_mul haa (Nat.pow_le_pow_right (by omega) hcon)
    have h2 : 2 ^ 53 * b ≤ a * 2 ^ (flDivScale a b + 1) := by
      rw [pow_succ]
      calc 2 ^ 53 * b = 2 * (2 ^ 52 * b) := by ring
        _ ≤ 2 * (a * 2 ^ flDivScale a b) := Nat.mul_le_mul_left 2 hlo
        _ = a * (2 ^ flDivScale a b * 2) := by ring
    omega
  rcases eq_or_lt_of_le hpp with heq | hlt
  · rw [heq]
    apply Nat.mul_le_mul_right
    unfold flDivMant
    rw [heq]
    apply roundNearEven_div_mono hb hb
    exact Nat.mul_le_mul (Nat.mul_le_mul haa le_rfl) le_rfl
  · calc flDivMant a b * 2 ^ flDivScale a' b
        ≤ 2 ^ 53 * 2 ^ flDivScale a' b := Nat.mul_le_mul_right _ hm1hi
      _ ≤ 2 ^ 52 * 2 ^ flDivScale a b := by
          rw [← pow_add, ← pow_add]
          exact Nat.pow_le_pow_right (by omega) (by omega)
      _ ≤ flDivMant a' b * 2 ^ flDivScale a b := Nat.mul_le_mul_right _ hm1lo'

theorem mul25Shift_le (m : Nat) : mul25Shift m ≤ 5 := by
  unfold mul25Shift; split_ifs <;> omega

theorem flMul25_char {m : Nat} (hlo : 2 ^ 52 ≤ m) (hhi : m ≤ 2 ^ 53) :
    2 ^ 52 * 2 ^ mul25Shift m ≤ 25 * m ∧
    25 * m < 2 ^ 53 * 2 ^ mul25Shift m := by
  unfold mul25Shift
  split_ifs with h
  · constructor <;> omega
  · constructor <;> omega

theorem flMul25Mant_spec {m : Nat} (hlo : 2 ^ 52 ≤ m) (hhi : m ≤ 2 ^ 53) :
    2 ^ 52 ≤ flMul25Mant m ∧ flMul25Mant m ≤ 2 ^ 53 := by
  obtain ⟨hA, hB⟩ := flMul25_char hlo hhi
  have hden : (0:Nat) < 2 ^ mul25Shift m := by positivity
  have hqlo : 2 ^ 52 ≤ 25 * m / 2 ^ mul25Shift m := by
    rw [Nat.le_div_iff_mul_le hden]; exact hA
  have hqhi : 25 * m / 2 ^ mul25Shift m < 2 ^ 53 := by
    rw [Nat.div_lt_iff_lt_mul hden]; exact hB
  exact ⟨le_trans hqlo (le_roundNearEven _ _ _),
    le_trans (roundNearEven_le _ _ _) (by omega)⟩

theorem flMul25_value_mono {m m' p p' : Nat}
    (hlo : 2 ^ 52 ≤ m) (hhi : m ≤ 2 ^ 53)
    (hlo' : 2 ^ 52 ≤ m') (hhi' : m' ≤ 2 ^ 53)
    (hp : 52 ≤ p) (hp' : 52 ≤ p')
    (hv : m * 2 ^ p' ≤ m' * 2 ^ p) :
    flMul25Mant m * 2 ^ (p' - mul25Shift m') ≤
      flMul25Mant m' * 2 ^ (p - mul25Shift m) := by
  obtain ⟨hA, hB⟩ := flMul25_char hlo hhi
  obtain ⟨hA', hB'⟩ := flMul25_char hlo' hhi'
  obtain ⟨hqlo, hqhi⟩ := flMul25Mant_spec hlo hhi
  obtain ⟨hqlo', hqhi'⟩ := flMul25Mant_spec hlo' hhi'
  have ht := mul25Shift_le m
  have ht' := mul25Shift_le m'
  have hexp : p' - mul25Shift m' ≤ p - mul25Shift m := by
    have h1 : 2 ^ 52 * 2 ^ mul25Shift m * 2 ^ p' ≤ 25 * m * 2 ^ p' :=
      Nat.mul_le_mul_right _ hA
    have h2 : 25 * m * 2 ^ p' ≤ 25 * m' * 2 ^ p := by
      calc 25 * m * 2 ^ p' = 25 * (m * 2 ^ p') := by ring
        _ ≤ 25 * (m' * 2 ^ p) := Nat.mul_le_mul_left 25 hv
        _ = 25 * m' * 2 ^ p := by ring
    have h3 : 25 * m' * 2 ^ p < 2 ^ 53 * 2 ^ mul25Shift m' * 2 ^ p :=
      Nat.mul_lt_mul_of_lt_of_le hB' le_rfl (by positivity)
    have h4 : 2 ^ (52 + mul25Shift m + p') < 2 ^ (53 + mul25Shift m' + p) := by
      calc 2 ^ (52 + mul25Shift m + p')
          = 2 ^ 52 * 2 ^ mul25Shift m * 2 ^ p' := by
            rw [pow_add, pow_add]
        _ ≤ 25 * m * 2 ^ p' := h1
        _ ≤ 25 * m' * 2 ^ p := h2
        _ < 2 ^ 53 * 2 ^ mul25Shift m' * 2 ^ p := h3
        _ = 2 ^ (53 + mul25Shift m' + p) := by
            rw [pow_add, pow_add]
    have h5 : 52 + mul25Shift m + p' < 53 + mul25Shift m' + p :=
      (Nat.pow_lt_pow_iff_right (by omega)).mp h4
    omega
  rcases eq_or_lt_of_le hexp with heq | hlt2
  · rw [heq]
    apply Nat.mul_le_mul_right
    have hexp2 : mul25Shift m' + p = mul25Shift m + p' := by omega
    have hkey : 25 * m * 2 ^ mul25Shift m' * 2 ^ p ≤
        25 * m' * 2 ^ mul25Shift m * 2 ^ p := by
      calc 25 * m * 2 ^ mul25Shift m' * 2 ^ p
          = 25 * (m * 2 ^ (mul25Shift m' + p)) := by rw [pow_add]; ring
        _ = 25 * (m * 2 ^ (mul25Shift m + p')) := by rw [hexp2]
        _ = 25 * 2 ^ mul25Shift m * (m * 2 ^ p') := by rw [pow_add]; ring
        _ ≤ 25 * 2 ^ mul25Shift m * (m' * 2 ^ p) := Nat.mul_le_mul_left _ hv
        _ = 25 * m' * 2 ^ mul25Shift m * 2 ^ p := by ring
    have hkey2 : 25 * m * 2 ^ mul25Shift m' ≤ 25 * m' * 2 ^ mul25Shift m :=
      Nat.le_of_mul_le_mul_right hkey (by positivity)
    unfold flMul25Mant
    exact roundNearEven_div_mono (by positivity) (by positivity) hkey2
  · calc flMul25Mant m * 2 ^ (p' - mul25Shift m')
        ≤ 2 ^ 53 * 2 ^ (p' - mul25Shift m') := Nat.mul_le_mul_right _ hqhi
      _ ≤ 2 ^ 52 * 2 ^ (p - mul25Shift m) := by
          rw [← pow_add, ← pow_add]
          exact Nat.pow_le_pow_right (by omega) (by omega)
      _ ≤ flMul25Mant m' * 2 ^ (p - mul25Shift m) :=
          Nat.mul_le_mul_right _ hqlo'

theorem jsRound25_zero (b : Nat) : jsRound25 0 b = 0 := by
  have h1 : flDivMant 0 b = 0 := by
    unfold flDivMant roundNearEven
    simp only [Nat.zero_mul, Nat.zero_div, Nat.zero_mod, Nat.mul_zero]
    split_ifs <;> omega
  unfold jsRound25
  rw [h1]
  have h2 : flMul25Mant 0 = 0 := rfl
  rw [h2]
  have h4 : mul25Shift 0 = 4 := rfl
  rw [h4]
  have hp := flDivScale_ge 0 b
  apply Nat.div_eq_of_lt
  have hlt : (2:Nat) ^ (flDivScale 0 b - 4 - 1) < 2 ^ (flDivScale 0 b - 4) :=
    Nat.pow_lt_pow_right (by omega) (by omega)
  omega

theorem jsRound25_mono {a a' b : Nat} (haa : a ≤ a') (hab : a' ≤ b) :
    jsRound25 a b ≤ jsRound25 a' b := by
  rcases Nat.eq_zero_or_pos a with rfl | ha
  · rw [jsRound25_zero]
    exact Nat.zero_le _
  · have ha' : 1 ≤ a' := le_trans ha haa
    have hab1 : a ≤ b := le_trans haa hab
    obtain ⟨hm1lo, hm1hi, _⟩ := flDivMant_spec ha hab1
    obtain ⟨hm1lo', hm1hi', _⟩ := flDivMant_spec ha' hab
    have hv := flDiv_value_mono ha haa hab
    have hB := flMul25_value_mono hm1lo hm1hi hm1lo' hm1hi'
      (flDivScale_ge a b) (flDivScale_ge a' b) hv
    have hp := flDivScale_ge a b
    have hp' := flDivScale_ge a' b
    have ht := mul25Shift_le (flDivMant a b)
    have ht' := mul25Shift_le (flDivMant a' b)
    unfold jsRound25
    apply div_le_div_cross (by positivity) (by positivity)
    have hpow : 2 ^ (flDivScale a b - mul25Shift (flDivMant a b) - 1) *
        2 ^ (flDivScale a' b - mul25Shift (flDivMant a' b)) =
        2 ^ (flDivScale a' b - mul25Shift (flDivMant a' b) - 1) *
        2 ^ (flDivScale a b - mul25Shift (flDivMant a b)) := by
      rw [← pow_add, ← pow_add]
      congr 1
      omega
    calc (flMul25Mant (flDivMant a b) +
          2 ^ (flDivScale a b - mul25Shift (flDivMant a b) - 1)) *
          2 ^ (flDivScale a' b - mul25Shift (flDivMant a' b))
        = flMul25Mant (flDivMant a b) *
            2 ^ (flDivScale a' b - mul25Shift (flDivMant a' b)) +
          2 ^ (flDivScale a b - mul25Shift (flDivMant a b) - 1) *
            2 ^ (flDivScale a' b - mul25Shift (flDivMant a' b)) := by ring
      _ ≤ flMul25Mant (flDivMant a' b) *
            2 ^ (flDivScale a b - mul25Shift (flDivMant a b)) +
          2 ^ (flDivScale a' b - mul25Shift (flDivMant a' b) - 1) *
            2 ^ (flDivScale a b - mul25Shift (flDivMant a b)) := by
          rw [hpow] at *
          exact Nat.add_le_add hB le_rfl
      _ = (flMul25Mant (flDivMant a' b) +
            2 ^ (flDivScale a' b - mul25Shift (flDivMant a' b) - 1)) *
          2 ^ (flDivScale a b - mul25Shift (flDivMant a b)) := by ring

theorem jsRound25_le_25 {a b : Nat} (hab : a ≤ b) : jsRound25 a b ≤ 25 := by
  rcases Nat.eq_zero_or_pos a with rfl | ha
  · rw [jsRound25_zero]; omega
  · obtain ⟨hm1lo, hm1hi, hm1le⟩ := flDivMant_spec ha hab
    obtain ⟨_, hm2hi⟩ := flMul25Mant_spec hm1lo hm1hi
    have hp := flDivScale_ge a b
    have ht := mul25Shift_le (flDivMant a b)
    have hq : 25 * flDivMant a b / 2 ^ mul25Shift (flDivMant a b) ≤
        25 * 2 ^ (flDivScale a b - mul25Shift (flDivMant a b)) := by
      have h1 : 25 * flDivMant a b ≤ 25 * 2 ^ flDivScale a b :=
        Nat.mul_le_mul_left 25 hm1le
      have he : 25 * 2 ^ (flDivScale a b - mul25Shift (flDivMant a b)) *
          2 ^ mul25Shift (flDivMant a b) = 25 * 2 ^ flDivScale a b := by
        rw [mul_assoc, ← pow_add]
        congr 2
        omega
      calc 25 * flDivMant a b / 2 ^ mul25Shift (flDivMant a b)
          ≤ 25 * 2 ^ flDivScale a b / 2 ^ mul25Shift (flDivMant a b) :=
            Nat.div_le_div_right h1
        _ = 25 * 2 ^ (flDivScale a b - mul25Shift (flDivMant a b)) := by
            rw [← he, Nat.mul_div_cancel _ (by positivity)]
    have hm2 : flMul25Mant (flDivMant a b) ≤
        25 * 2 ^ (flDivScale a b - mul25Shift (flDivMant a b)) + 1 := by
      unfold flMul25Mant
      exact le_trans (roundNearEven_le _ _ _) (by omega)
    unfold jsRound25
    have hP1 : 2 ≤ flDivScale a b - mul25Shift (flDivMant a b) := by omega
    have h2P : 2 ^ (flDivScale a b - mul25Shift (flDivMant a b)) =
        2 * 2 ^ (flDivScale a b - mul25Shift (flDivMant a b) - 1) := by
      rw [← pow_succ']
      congr 1
      omega
    have hbig : 2 ≤ 2 ^ (flDivScale a b - mul25Shift (flDivMant a b) - 1) := by
      calc (2:Nat) = 2 ^ 1 := rfl
        _ ≤ 2 ^ (flDivScale a b - mul25Shift (flDivMant a b) - 1) :=
          Nat.pow_le_pow_right (by omega) (by omega)
    have := (Nat.div_lt_iff_lt_mul
      (show (0:Nat) < 2 ^ (flDivScale a b - mul25Shift (flDivMant a b)) by
        positivity)).mpr (by omega : (flMul25Mant (flDivMant a b) +
          2 ^ (flDivScale a b - mul25Shift (flDivMant a b) - 1)) <
          26 * 2 ^ (flDivScale a b - mul25Shift (flDivMant a b)))
    omega

/-! The last recorded snapshot of a history. -/

/-- Last element of the history (the current value of the cached record). -/
def lastSnap : List JobStatus → Option JobStatus
  | [] => none
  | [a] => some a
  | _ :: b :: rest => lastSnap (b :: rest)

theorem lastSnap_concat : ∀ (l : List JobStatus) (b : JobStatus),
    lastSnap (l ++ [b]) = some b
  | [], _ => rfl
  | [_], _ => rfl
  | _ :: y :: rest, b => lastSnap_concat (y :: rest) b

theorem chainCheck_snoc (f : JobStatus → JobStatus → Bool) :
    ∀ (l : List JobStatus) (a b : JobStatus), lastSnap l = some a →
      chainCheck f l = true → f a b = true → chainCheck f (l ++ [b]) = true
  | [], _, _, h, _, _ => by simp [lastSnap] at h
  | [x], a, b, h, _, hf => by
    obtain rfl : x = a := by simpa [lastSnap] using h
    simp [chainCheck, hf]
  | x :: y :: rest, a, b, h, hc, hf => by
    have hxy : f x y = true ∧ chainCheck f (y :: rest) = true := by
      simpa [chainCheck, Bool.and_eq_true] using hc
    have ih := chainCheck_snoc f (y :: rest) a b (by simpa [lastSnap] using h)
      hxy.2 hf
    simpa [chainCheck, hxy.1] using ih

/-- Invariant of the observed history: the cached record is its last
snapshot, and the monotonicity, counter-bound, result-exclusivity and
terminal-stability checks all pass. -/
structure HistInv (s : RunState) : Prop where
  last_job : lastSnap s.history = some s.job
  mono : monoHistory s.history = true
  bounded : countersBounded s.history = true
  excl : exclusiveHistory s.history = true
  stable : terminalStable s.history = true

theorem histInv_of_eq {s s' : RunState} (h : HistInv s)
    (hh : s'.history = s.history) (hj : s'.job = s.job) : HistInv s' := by
  refine ⟨?_, ?_, ?_, ?_, ?_⟩ <;> rw [hh]
  · rw [hj]; exact h.last_job
  · exact h.mono
  · exact h.bounded
  · exact h.excl
  · exact h.stable

theorem histInv_durableWriteCaught (env : Env) (u : JobUpdates) {s : RunState}
    (h : HistInv s) : HistInv (durableWriteCaught env s u) :=
  histInv_of_eq h (durableWriteCaught_history env s u) (durableWriteCaught_job env s u)

theorem mutateJob_inv {s : RunState} {f : JobStatus → JobStatus} {pw : List Nat}
    (h : HistInv s)
    (hmono : monoStep s.job (nextJob s f) = true)
    (hterm : terminalStep s.job (nextJob s f) = true)
    (hexcl : stateExclusive (nextJob s f) = true)
    (hbound : (nextJob s f).filesCompleted ≤ (nextJob s f).totalFiles) :
    HistInv (mutateJob s f pw) := by
  refine ⟨?_, ?_, ?_, ?_, ?_⟩
  · rw [mutateJob_history, mutateJob_job]
    exact lastSnap_concat s.history (nextJob s f)
  · rw [mutateJob_history]
    exact chainCheck_snoc monoStep s.history s.job (nextJob s f) h.last_job h.mono hmono
  · rw [mutateJob_history]
    simp only [countersBounded, List.all_append, List.all_cons, List.all_nil,
      Bool.and_eq_true, decide_eq_true_eq]
    exact ⟨h.bounded, hbound, trivial⟩
  · rw [mutateJob_history]
    simp only [exclusiveHistory, List.all_append, List.all_cons, List.all_nil,
      Bool.and_eq_true]
    exact ⟨h.excl, hexcl, trivial⟩
  · rw [mutateJob_history]
    exact chainCheck_snoc terminalStep s.history s.job (nextJob s f) h.last_job h.stable hterm

/-- Shape of the run state anywhere strictly between the processing mark
and the terminal mutation: history invariant, status still processing, no
result fields set, totalFiles pinned to the key count and filesCompleted
within it. -/
structure MidGood (n : Nat) (s : RunState) : Prop where
  inv : HistInv s
  st : s.job.status = .processing
  url : s.job.downloadUrl = none
  err : s.job.error = none
  tf : s.job.totalFiles = n
  fcLe : s.job.filesCompleted ≤ n

theorem midGood_of_eq {n : Nat} {s s' : RunState} (h : MidGood n s)
    (hh : s'.history = s.history) (hj : s'.job = s.job) : MidGood n s' :=
  ⟨histInv_of_eq h.inv hh hj, by rw [hj]; exact h.st, by rw [hj]; exact h.url,
   by rw [hj]; exact h.err, by rw [hj]; exact h.tf, by rw [hj]; exact h.fcLe⟩

theorem midGood_durableWriteCaught (env : Env) (u : JobUpdates) {n : Nat}
    {s : RunState} (h : MidGood n s) : MidGood n (durableWriteCaught env s u) :=
  midGood_of_eq h (durableWriteCaught_history env s u) (durableWriteCaught_job env s u)

/-- State at entry of the pipeline's try-block: the freshly created job,
marked processing and persisted (protected). -/
def startState (env : Env) (keys : List String) (jid : String) (db : Db)
    (now : Nat) : RunState :=
  let s := initialRunState jid keys db now
  let s := mutateJob s (fun j => { j with status := .processing }) []
  durableWriteCaught env s
    { status := some JobState.processing, updatedAt := s.job.updatedAt }

theorem startState_job (env : Env) (keys : List String) (jid : String)
    (db : Db) (now : Nat) :
    (startState env keys jid db now).job =
      { jobId := jid, status := .processing, fileKeys := keys, progress := 0,
        filesCompleted := 0, totalFiles := keys.length, downloadUrl := none,
        error := none, createdAt := now, updatedAt := now + 1 } := by
  simp [startState, nextJob, initialRunState, createdJob]

theorem startState_simple (env : Env) (keys : List String) (jid : String)
    (db : Db) (now : Nat) :
    (startState env keys jid db now).progressWrites = [] ∧
    (startState env keys jid db now).uploads = [] ∧
    (startState env keys jid db now).integrityFailures = 0 ∧
    (startState env keys jid db now).tempFiles = [] := by
  refine ⟨?_, ?_, ?_, ?_⟩ <;> simp [startState, initialRunState]

theorem startState_midGood (env : Env) (keys : List String) (jid : String)
    (db : Db) (now : Nat) :
    MidGood keys.length (startState env keys jid db now) := by
  have hinv0 : HistInv (initialRunState jid keys db now) := by
    refine ⟨rfl, rfl, ?_, ?_, rfl⟩
    · simp [initialRunState, countersBounded, createdJob]
    · simp [initialRunState, exclusiveHistory, createdJob, stateExclusive]
  have hinv1 : HistInv (mutateJob (initialRunState jid keys db now)
      (fun j => { j with status := .processing }) []) := by
    apply mutateJob_inv hinv0
    · simp [monoStep, nextJob, initialRunState, createdJob]
    · simp [terminalStep, initialRunState, createdJob, JobState.isTerminal]
    · simp [stateExclusive, nextJob, initialRunState, createdJob]
    · simp [nextJob, initialRunState, createdJob]
  refine ⟨histInv_durableWriteCaught _ _ hinv1, ?_, ?_, ?_, ?_, ?_⟩ <;>
    simp [startState, nextJob, initialRunState, createdJob]

/-! Collect-phase loop lemmas. -/

theorem collectStep_facts (env : Env) (n i : Nat) (key : String)
    (fileData : List Nat) (s : RunState)
    (hmid : MidGood n s)
    (hfc : s.job.filesCompleted ≤ i)
    (hpr : s.job.progress ≤ jsRound25 i n)
    (hin : i + 1 ≤ n) :
    MidGood n (collectStep env n i key fileData s) ∧
    (collectStep env n i key fileData s).job.filesCompleted = i + 1 ∧
    (collectStep env n i key fileData s).job.progress =
      jsRound25 (i + 1) n ∧
    (collectStep env n i key fileData s).progressWrites =
      s.progressWrites ++ [jsRound25 (i + 1) n] ∧
    (collectStep env n i key fileData s).uploads = s.uploads ∧
    (collectStep env n i key fileData s).integrityFailures = s.integrityFailures ∧
    (collectStep env n i key fileData s).tempFiles = s.tempFiles ++
      [{ key := key, data := fileData, checksum := env.hashHex fileData }] := by
  have hjT : ({ s with tempFiles := s.tempFiles ++
      [{ key := key, data := fileData, checksum := env.hashHex fileData }] } :
        RunState).job = s.job := rfl
  have hmidT : MidGood n ({ s with tempFiles := s.tempFiles ++
      [{ key := key, data := fileData, checksum := env.hashHex fileData }] }) :=
    midGood_of_eq hmid rfl rfl
  have hmidM : MidGood n (collectStep env n i key fileData s) := by
    refine midGood_durableWriteCaught _ _ ?_
    refine ⟨mutateJob_inv hmidT.inv ?_ ?_ ?_ ?_, ?_, ?_, ?_, ?_, ?_⟩
    · simp only [monoStep, nextJob, Bool.and_eq_true, decide_eq_true_eq, hjT]
      refine ⟨⟨?_, Nat.le_succ_of_le hfc⟩, trivial⟩
      calc s.job.progress ≤ jsRound25 i n := hpr
        _ ≤ jsRound25 (i + 1) n := jsRound25_mono (Nat.le_succ i) hin
    · simp [terminalStep, hjT, hmid.st, JobState.isTerminal]
    · simp [stateExclusive, nextJob, hjT, hmid.st, hmid.url, hmid.err]
    · show i + 1 ≤ s.job.totalFiles
      rw [hmid.tf]; omega
    · simp [nextJob, hjT, hmid.st]
    · simp [nextJob, hjT, hmid.url]
    · simp [nextJob, hjT, hmid.err]
    · simp [nextJob, hjT, hmid.tf]
    · show i + 1 ≤ n
      omega
  refine ⟨hmidM, ?_, ?_, ?_, ?_, ?_, ?_⟩ <;> simp [collectStep, nextJob]

theorem range_map_shift (g : Nat → Nat) (m : Nat) :
    (List.range (m + 1)).map g = g 0 :: (List.range m).map (fun k => g (k + 1)) := by
  rw [List.range_succ_eq_map, List.map_cons, List.map_map]
  rfl

theorem collectFiles_ok_spec (env : Env) (n : Nat) :
    ∀ (keys : List String) (i : Nat) (s : RunState),
      collectFailsAt env keys = none →
      i + keys.length ≤ n →
      MidGood n s →
      s.job.filesCompleted ≤ i →
      s.job.progress ≤ jsRound25 i n →
      (∀ f ∈ s.tempFiles, f.checksum = env.hashHex f.data) →
      ∃ s', collectFiles env n keys i s = .ok s' ∧
        MidGood n s' ∧
        s'.job.filesCompleted ≤ i + keys.length ∧
        s'.job.progress ≤ jsRound25 (i + keys.length) n ∧
        s'.progressWrites = s.progressWrites ++
          (List.range keys.length).map (fun k => jsRound25 (i + k + 1) n) ∧
        s'.uploads = s.uploads ∧
        s'.integrityFailures = s.integrityFailures ∧
        (∀ f ∈ s'.tempFiles, f.checksum = env.hashHex f.data)
  | [], i, s, _, _, hmid, hfc, hpr, htemp => by
    refine ⟨s, rfl, hmid, by simpa using hfc, by simpa using hpr, by simp, rfl, rfl, htemp⟩
  | key :: rest, i, s, hC, hin, hmid, hfc, hpr, htemp => by
    rcases hF : env.fetchObject key with m | data
    · rw [collectFailsAt, hF] at hC; cases hC
    · have hne : ¬ data.length = 0 := by
        intro h0
        rw [collectFailsAt, hF] at hC
        simp [h0] at hC
      have hCr : collectFailsAt env rest = none := by
        rw [collectFailsAt, hF] at hC
        simpa [hne] using hC
      obtain ⟨hmidS, hfcS, hprS, hpwS, hupS, hintS, htmpS⟩ :=
        collectStep_facts env n i key data s hmid hfc hpr
          (by simp only [List.length_cons] at hin; omega)
      obtain ⟨s', hrec, hmid', hfc', hpr', hpw', hup', hint', htemp'⟩ :=
        collectFiles_ok_spec env n rest (i + 1)
          (collectStep env n i key data s)
          hCr (by simp only [List.length_cons] at hin; omega) hmidS
          (le_of_eq hfcS) (le_of_eq hprS)
          (by
            intro f hf
            rw [htmpS] at hf
            rcases List.mem_append.mp hf with hf | hf
            · exact htemp f hf
            · rw [List.mem_singleton.mp hf])
      refine ⟨s', ?_, hmid', by simp only [List.length_cons]; omega, ?_, ?_,
        by rw [hup', hupS],
        by rw [hint', hintS], htemp'⟩
      · rw [collectFiles, collectOne, hF]
        simp only [hne, if_false]
        exact hrec
      · have he : i + 1 + rest.length = i + (rest.length + 1) := by omega
        rw [he] at hpr'
        simpa using hpr'
      · rw [hpw', hpwS, List.append_assoc]
        congr 1
        rw [List.length_cons,
          range_map_shift (fun k => jsRound25 (i + k + 1) n) rest.length,
          List.singleton_append]
        simp only [Nat.add_zero]
        congr 1
        apply List.map_congr_left
        intro k _
        congr 1
        omega

theorem collectFiles_err_spec (env : Env) (n : Nat) :
    ∀ (keys : List String) (i : Nat) (s : RunState) (k m : String),
      collectFailsAt env keys = some (k, m) →
      i + keys.length ≤ n →
      MidGood n s →
      s.job.filesCompleted ≤ i →
      s.job.progress ≤ jsRound25 i n →
      ∃ s', collectFiles env n keys i s =
          .error ("Failed to collect file " ++ k ++ ": " ++ m, s') ∧
        MidGood n s' ∧
        s'.uploads = s.uploads ∧
        s'.integrityFailures = s.integrityFailures ∧
        k ∈ keys
  | [], _, _, _, _, hC, _, _, _, _ => by cases hC
  | key :: rest, i, s, k, m, hC, hin, hmid, hfc, hpr => by
    rcases hF : env.fetchObject key with m0 | data
    · rw [collectFailsAt, hF] at hC
      obtain ⟨rfl, rfl⟩ : key = k ∧ m0 = m := by simpa using hC
      refine ⟨s, ?_, hmid, rfl, rfl, List.mem_cons_self key rest⟩
      rw [collectFiles, collectOne, hF]
    · by_cases h0 : data.length = 0
      · simp only [collectFailsAt, hF] at hC
        rw [if_pos h0] at hC
        obtain ⟨rfl, rfl⟩ : key = k ∧ ("File " ++ key ++ " is empty") = m := by
          simpa using hC
        refine ⟨s, ?_, hmid, rfl, rfl, List.mem_cons_self key rest⟩
        rw [collectFiles, collectOne, hF]
        simp only [h0, if_true]
      · have hCr : collectFailsAt env rest = some (k, m) := by
          simp only [collectFailsAt, hF] at hC
          rwa [if_neg h0] at hC
        obtain ⟨hmidS, hfcS, hprS, _, hupS, hintS, _⟩ :=
          collectStep_facts env n i key data s hmid hfc hpr
            (by simp only [List.length_cons] at hin; omega)
        obtain ⟨s', hrec, hmid', hup', hint', hk⟩ :=
          collectFiles_err_spec env n rest (i + 1)
            (collectStep env n i key data s) k m hCr
            (by simp only [List.length_cons] at hin; omega) hmidS
            (le_of_eq hfcS) (le_of_eq hprS)
        refine ⟨s', ?_, hmid', by rw [hup', hupS], by rw [hint', hintS],
          List.mem_cons_of_mem key hk⟩
        rw [collectFiles, collectOne, hF]
        simp only [h0, if_false]
        exact hrec

/-! Verify-phase lemmas. -/

theorem verifyFiles_ok_of_agree (recompute : List Nat → String) (s : RunState) :
    ∀ files : List CollectedFile,
      (∀ f ∈ files, recompute f.data = f.checksum) →
      verifyFiles recompute s files = .ok s
  | [], _ => rfl
  | f :: rest, h => by
    rw [verifyFiles, if_pos (h f (List.mem_cons_self f rest))]
    exact verifyFiles_ok_of_agree recompute s rest
      (fun g hg => h g (List.mem_cons_of_mem f hg))

theorem verifyFiles_spec (recompute : List Nat → String) (s : RunState) :
    ∀ files : List CollectedFile,
      verifyFiles recompute s files = .ok s ∨
      ∃ key, verifyFiles recompute s files =
        .error ("Integrity check failed for file " ++ key,
          { s with integrityFailures := s.integrityFailures + 1 })
  | [] => .inl rfl
  | f :: rest => by
    by_cases h : recompute f.data = f.checksum
    · rw [verifyFiles, if_pos h]
      exact verifyFiles_spec recompute s rest
    · exact .inr ⟨f.key, by rw [verifyFiles, if_neg h]⟩

/-! Checkpoint, upload and publish lemmas. -/

@[simp] theorem mutateJob_clock (s : RunState) (f : JobStatus → JobStatus) (pw : List Nat) :
    (mutateJob s f pw).clock = s.clock + 1 := rfl

@[simp] theorem durableWriteCaught_clock (env : Env) (s : RunState) (u : JobUpdates) :
    (durableWriteCaught env s u).clock = s.clock := by
  unfold durableWriteCaught durableWrite; split <;> rfl

theorem writeCheckpoint_spec (env : Env) (n p : Nat) (s : RunState)
    (hmid : MidGood n s) (hpr : s.job.progress ≤ p) :
    ∃ s', (writeCheckpoint env p s = .ok s' ∨
           writeCheckpoint env p s = .error (env.dbErrorMessage, s')) ∧
      MidGood n s' ∧
      s'.job.progress = p ∧
      s'.job.filesCompleted = s.job.filesCompleted ∧
      s'.progressWrites = s.progressWrites ++ [p] ∧
      s'.uploads = s.uploads ∧
      s'.integrityFailures = s.integrityFailures ∧
      s'.tempFiles = s.tempFiles := by
  have hmidM : MidGood n (mutateJob s (fun j => { j with progress := p }) [p]) := by
    refine ⟨mutateJob_inv hmid.inv ?_ ?_ ?_ ?_, ?_, ?_, ?_, ?_, ?_⟩
    · simp only [monoStep, nextJob, Bool.and_eq_true, decide_eq_true_eq]
      exact ⟨⟨hpr, le_refl _⟩, trivial⟩
    · simp [terminalStep, hmid.st, JobState.isTerminal]
    · simp [stateExclusive, nextJob, hmid.st, hmid.url, hmid.err]
    · show s.job.filesCompleted ≤ s.job.totalFiles
      rw [hmid.tf]; exact hmid.fcLe
    · simp [nextJob, hmid.st]
    · simp [nextJob, hmid.url]
    · simp [nextJob, hmid.err]
    · simp [nextJob, hmid.tf]
    · show s.job.filesCompleted ≤ n
      exact hmid.fcLe
  refine ⟨durableWriteCaught env
      (mutateJob s (fun j => { j with progress := p }) [p])
      { progress := some p,
        updatedAt := (mutateJob s (fun j => { j with progress := p }) [p]).job.updatedAt },
    ?_, midGood_durableWriteCaught _ _ hmidM, ?_, ?_, ?_, ?_, ?_, ?_⟩
  · unfold writeCheckpoint
    by_cases hw : env.dbWriteOk s.writeIdx
    · left
      simp [durableWrite, durableWriteCaught, hw]
    · right
      simp [durableWrite, durableWriteCaught, hw]
  · simp [nextJob]
  · simp [nextJob]
  · simp
  · simp
  · simp
  · simp

theorem uploadArchive_spec (env : Env) (n : Nat) (s : RunState)
    (hmid : MidGood n s) (hpr : s.job.progress ≤ 75) :
    (∃ s', uploadArchive env s = .ok s' ∧ MidGood n s' ∧
      s'.job.progress = 75 ∧
      s'.progressWrites = s.progressWrites ++ [75] ∧
      s'.uploads = s.uploads ++ [(s.job.jobId ++ ".zip", buildArchive s.tempFiles)] ∧
      s'.integrityFailures = s.integrityFailures) ∨
    uploadArchive env s = .error (env.putErrorMessage, s) := by
  by_cases hput : env.putOk
  · left
    have hjU : ({ s with uploads := s.uploads ++
        [(s.job.jobId ++ ".zip", buildArchive s.tempFiles)] } : RunState).job = s.job := rfl
    have hmidU : MidGood n ({ s with uploads := s.uploads ++
        [(s.job.jobId ++ ".zip", buildArchive s.tempFiles)] }) :=
      midGood_of_eq hmid rfl rfl
    have hmidM : MidGood n (mutateJob ({ s with uploads := s.uploads ++
        [(s.job.jobId ++ ".zip", buildArchive s.tempFiles)] })
        (fun j => { j with progress := 75 }) [75]) := by
      refine ⟨mutateJob_inv hmidU.inv ?_ ?_ ?_ ?_, ?_, ?_, ?_, ?_, ?_⟩
      · simp only [monoStep, nextJob, Bool.and_eq_true, decide_eq_true_eq, hjU]
        exact ⟨⟨hpr, le_refl _⟩, trivial⟩
      · simp [terminalStep, hjU, hmid.st, JobState.isTerminal]
      · simp [stateExclusive, nextJob, hjU, hmid.st, hmid.url, hmid.err]
      · show s.job.filesCompleted ≤ s.job.totalFiles
        rw [hmid.tf]; exact hmid.fcLe
      · simp [nextJob, hjU, hmid.st]
      · simp [nextJob, hjU, hmid.url]
      · simp [nextJob, hjU, hmid.err]
      · simp [nextJob, hjU, hmid.tf]
      · show s.job.filesCompleted ≤ n
        exact hmid.fcLe
    refine ⟨uploadStep env s, ?_, midGood_durableWriteCaught _ _ hmidM,
      ?_, ?_, ?_, ?_⟩
    · unfold uploadArchive
      rw [if_pos hput]
    · simp [uploadStep, nextJob]
    · simp [uploadStep]
    · simp [uploadStep]
    · simp [uploadStep]
  · right
    unfold uploadArchive
    rw [if_neg hput]

theorem publishResult_spec (env : Env) (n : Nat) (s : RunState)
    (hmid : MidGood n s) (hpr : s.job.progress ≤ 100) :
    (∃ url s', env.presign = .ok url ∧ publishResult env s = .ok s' ∧
      HistInv s' ∧ s'.job.status = .completed ∧ s'.job.downloadUrl = some url ∧
      s'.job.error = none ∧ s'.job.progress = 100 ∧
      s'.progressWrites = s.progressWrites ++ [100] ∧
      s'.uploads = s.uploads ∧ s'.integrityFailures = s.integrityFailures ∧
      s'.job.totalFiles = s.job.totalFiles) ∨
    (∃ m, env.presign = .error m ∧ publishResult env s = .error (m, s)) := by
  rcases hp : env.presign with m | url
  · exact .inr ⟨m, rfl, by unfold publishResult; rw [hp]⟩
  · left
    have hInvM : HistInv (mutateJob s
        (fun j => { j with status := .completed, progress := 100,
                           downloadUrl := some url }) [100]) := by
      apply mutateJob_inv hmid.inv
      · simp only [monoStep, nextJob, Bool.and_eq_true, decide_eq_true_eq]
        exact ⟨⟨hpr, le_refl _⟩, trivial⟩
      · simp [terminalStep, hmid.st, JobState.isTerminal]
      · simp [stateExclusive, nextJob, hmid.err]
      · show s.job.filesCompleted ≤ s.job.totalFiles
        rw [hmid.tf]; exact hmid.fcLe
    refine ⟨url, completeStep env url s, rfl, ?_,
      histInv_durableWriteCaught _ _ hInvM, ?_, ?_, ?_, ?_, ?_, ?_, ?_, ?_⟩
    · unfold publishResult
      rw [hp]
    · simp [completeStep, nextJob]
    · simp [completeStep, nextJob]
    · simp [completeStep, nextJob, hmid.err]
    · simp [completeStep, nextJob]
    · simp [completeStep]
    · simp [completeStep]
    · simp [completeStep]
    · simp [completeStep, nextJob]

/-! The failure path: the pipeline catch plus the launch-site catch. -/

/-- State transformation applied when the pipeline throws message m from
state s: the catch inside `processDownloadJob` marks the job failed and
persists (protected), the finally-block drops the collected bytes, the
rethrow reaches the `.catch` at the launch site, which marks the job
failed once more with the same message and persists (protected). -/
def failSteps (env : Env) (m : String) (s : RunState) : RunState :=
  let s := mutateJob s (fun j => { j with status := .failed, error := some m }) []
  let s := durableWriteCaught env s
    { status := some JobState.failed, error := some m, updatedAt := s.job.updatedAt }
  let s := { s with tempFiles := [] }
  let s := mutateJob s (fun j => { j with status := .failed, error := some m }) []
  durableWriteCaught env s
    { status := some JobState.failed, error := some m, updatedAt := s.job.updatedAt }

theorem runDownloadJobWith_eq (recompute : List Nat → String) (env : Env)
    (keys : List String) (jid : String) (db : Db) (now : Nat) :
    runDownloadJobWith recompute env keys jid db now =
      match pipelineTry recompute env keys (startState env keys jid db now) with
      | .ok s => { s with tempFiles := [] }
      | .error (m, s) => failSteps env m s := by
  simp only [runDownloadJobWith, processDownloadJobWith, startState, failSteps]
  rcases pipelineTry recompute env keys _ with ⟨m, s⟩ | s <;> rfl

theorem failSteps_facts (env : Env) (m : String) {n : Nat} {s : RunState}
    (hmid : MidGood n s) :
    HistInv (failSteps env m s) ∧
    (failSteps env m s).job.status = .failed ∧
    (failSteps env m s).job.error = some m ∧
    (failSteps env m s).job.downloadUrl = none ∧
    (failSteps env m s).uploads = s.uploads ∧
    (failSteps env m s).integrityFailures = s.integrityFailures ∧
    (failSteps env m s).job.totalFiles = s.job.totalFiles := by
  have hInv1 : HistInv (mutateJob s
      (fun j => { j with status := .failed, error := some m }) []) := by
    apply mutateJob_inv hmid.inv
    · simp only [monoStep, nextJob, Bool.and_eq_true, decide_eq_true_eq]
      exact ⟨⟨le_refl _, le_refl _⟩, trivial⟩
    · simp [terminalStep, hmid.st, JobState.isTerminal]
    · simp [stateExclusive, nextJob, hmid.url]
    · show s.job.filesCompleted ≤ s.job.totalFiles
      rw [hmid.tf]; exact hmid.fcLe
  have hInv2 := histInv_durableWriteCaught env
    { status := some JobState.failed, error := some m,
      updatedAt := (mutateJob s
        (fun j => { j with status := .failed, error := some m }) []).job.updatedAt }
    hInv1
  set s2 := durableWriteCaught env
    (mutateJob s (fun j => { j with status := .failed, error := some m }) [])
    { status := some JobState.failed, error := some m,
      updatedAt := (mutateJob s
        (fun j => { j with status := .failed, error := some m }) []).job.updatedAt }
    with hs2
  have hjob2 : s2.job = nextJob s
      (fun j => { j with status := .failed, error := some m }) := by
    rw [hs2]; simp
  have hInv3 : HistInv ({ s2 with tempFiles := [] }) :=
    histInv_of_eq hInv2 rfl rfl
  have hjob3 : ({ s2 with tempFiles := [] } : RunState).job = s2.job := rfl
  have hInv4 : HistInv (mutateJob ({ s2 with tempFiles := [] })
      (fun j => { j with status := .failed, error := some m }) []) := by
    apply mutateJob_inv hInv3
    · simp only [monoStep, nextJob, Bool.and_eq_true, decide_eq_true_eq]
      exact ⟨⟨le_refl _, le_refl _⟩, trivial⟩
    · simp [terminalStep, nextJob, hjob3, hjob2, JobState.isTerminal]
    · simp [stateExclusive, nextJob, hjob3, hjob2, hmid.url]
    · show ({ s2 with tempFiles := [] } : RunState).job.filesCompleted ≤ _
      rw [hjob3, hjob2]
      simp only [nextJob]
      show s.job.filesCompleted ≤ s.job.totalFiles
      rw [hmid.tf]; exact hmid.fcLe
  refine ⟨?_, ?_, ?_, ?_, ?_, ?_, ?_⟩
  · exact histInv_durableWriteCaught _ _ hInv4
  · show (failSteps env m s).job.status = .failed
    simp [failSteps, nextJob]
  · simp [failSteps, nextJob]
  · simp [failSteps, nextJob, hmid.url]
  · simp [failSteps]
  · simp [failSteps]
  · simp [failSteps, nextJob]

/-- Master case analysis of one detached run: the history invariant always
holds; the job ends completed (with the full checkpoint trace and a result
URL) or failed (with an error and no result URL); with the Verify-phase
checksum function the code actually uses, the integrity branch never
fires; whenever it does fire (any recompute function), the job fails with
no upload; and a Collect-phase failure produces the naming error with no
upload. -/
theorem runDownloadJobWith_facts (recompute : List Nat → String) (env : Env)
    (keys : List String) (jid : String) (db : Db) (now : Nat) :
    HistInv (runDownloadJobWith recompute env keys jid db now) ∧
    (runDownloadJobWith recompute env keys jid db now).job.totalFiles = keys.length ∧
    ((runDownloadJobWith recompute env keys jid db now).job.status = .completed ∧
       (runDownloadJobWith recompute env keys jid db now).job.downloadUrl.isSome = true ∧
       (runDownloadJobWith recompute env keys jid db now).job.error = none ∧
       (runDownloadJobWith recompute env keys jid db now).job.progress = 100 ∧
       (runDownloadJobWith recompute env keys jid db now).progressWrites =
         (List.range keys.length).map
           (fun k => jsRound25 (k + 1) keys.length) ++ [30, 50, 75, 100] ∨
     (runDownloadJobWith recompute env keys jid db now).job.status = .failed ∧
       (runDownloadJobWith recompute env keys jid db now).job.error.isSome = true ∧
       (runDownloadJobWith recompute env keys jid db now).job.downloadUrl = none) ∧
    ((∀ d, recompute d = env.hashHex d) →
      (runDownloadJobWith recompute env keys jid db now).integrityFailures = 0) ∧
    (0 < (runDownloadJobWith recompute env keys jid db now).integrityFailures →
      (runDownloadJobWith recompute env keys jid db now).job.status = .failed ∧
      (runDownloadJobWith recompute env keys jid db now).uploads = []) ∧
    (∀ k m, collectFailsAt env keys = some (k, m) →
      (runDownloadJobWith recompute env keys jid db now).job.status = .failed ∧
      (runDownloadJobWith recompute env keys jid db now).job.error =
        some ("Failed to collect file " ++ k ++ ": " ++ m) ∧
      (runDownloadJobWith recompute env keys jid db now).job.downloadUrl = none ∧
      (runDownloadJobWith recompute env keys jid db now).uploads = []) := by
  have h0 := startState_midGood env keys jid db now
  obtain ⟨hpw0, hup0, hint0, htmp0⟩ := startState_simple env keys jid db now
  have hfc0 : (startState env keys jid db now).job.filesCompleted = 0 := by
    rw [startState_job]
  have hpr0 : (startState env keys jid db now).job.progress = 0 := by
    rw [startState_job]
  rcases hC : collectFailsAt env keys with _ | ⟨k0, m0⟩
  · -- Collect cannot fail under these oracles.
    obtain ⟨s3, hcoll, hmid3, hfc3, hpr3, hpw3, hup3, hint3, htemp3⟩ :=
      collectFiles_ok_spec env keys.length keys 0 (startState env keys jid db now)
        hC (by omega) h0 (le_of_eq hfc0) (by rw [hpr0]; exact Nat.zero_le _)
        (by rw [htmp0]; intro f hf; cases hf)
    have hpr25 : s3.job.progress ≤ 25 :=
      le_trans hpr3 (jsRound25_le_25 (by omega))
    have hmapeq : (List.range keys.length).map
        (fun k => jsRound25 (0 + k + 1) keys.length) =
        (List.range keys.length).map
          (fun k => jsRound25 (k + 1) keys.length) := by
      apply List.map_congr_left
      intro k _
      congr 1
      omega
    rcases hver : verifyFiles recompute s3 s3.tempFiles with e | sv
    case error =>
      -- integrity mismatch
      obtain ⟨vkey, hver'⟩ : ∃ vkey, verifyFiles recompute s3 s3.tempFiles =
          .error ("Integrity check failed for file " ++ vkey,
            { s3 with integrityFailures := s3.integrityFailures + 1 }) := by
        rcases verifyFiles_spec recompute s3 s3.tempFiles with hok | hbad
        · rw [hver] at hok; cases hok
        · exact hbad
      have hmidI : MidGood keys.length
          ({ s3 with integrityFailures := s3.integrityFailures + 1 }) :=
        midGood_of_eq hmid3 rfl rfl
      have hpipe : pipelineTry recompute env keys (startState env keys jid db now) =
          .error ("Integrity check failed for file " ++ vkey,
            { s3 with integrityFailures := s3.integrityFailures + 1 }) := by
        simp only [pipelineTry, hcoll, hver']
      have hrun : runDownloadJobWith recompute env keys jid db now =
          failSteps env ("Integrity check failed for file " ++ vkey)
            ({ s3 with integrityFailures := s3.integrityFailures + 1 }) := by
        rw [runDownloadJobWith_eq, hpipe]
      obtain ⟨hInvF, hstF, herrF, hurlF, hupF, hintF, htfF⟩ := failSteps_facts env _ hmidI
      rw [hrun]
      refine ⟨hInvF, by rw [htfF]; exact hmidI.tf,
        .inr ⟨hstF, by rw [herrF]; rfl, hurlF⟩, ?_, ?_, ?_⟩
      · intro hagree
        exfalso
        have hok := verifyFiles_ok_of_agree recompute s3 s3.tempFiles
          (fun f hf => by rw [hagree f.data, htemp3 f hf])
        rw [hok] at hver'
        exact Except.noConfusion hver'
      · intro _
        refine ⟨hstF, ?_⟩
        rw [hupF]
        show s3.uploads = []
        rw [hup3, hup0]
      · intro k m hkm
        exact Option.noConfusion hkm
    case ok =>
      have hvs : s3 = sv := by
        rcases verifyFiles_spec recompute s3 s3.tempFiles with hok | ⟨vkey, hbad⟩
        · rw [hver] at hok
          exact (Except.ok.inj hok).symm
        · rw [hver] at hbad; cases hbad
      subst hvs
      obtain ⟨s4, h30or, hmid4, hprog4, hfc4, hpw4, hup4, hint4, htmp4⟩ :=
        writeCheckpoint_spec env keys.length 30 s3 hmid3 (by omega)
      rcases h30or with h30 | h30
      case inr =>
        -- the unprotected progress-30 write threw
        have hpipe : pipelineTry recompute env keys (startState env keys jid db now) =
            .error (env.dbErrorMessage, s4) := by
          simp only [pipelineTry, hcoll, hver, h30]
        have hrun : runDownloadJobWith recompute env keys jid db now =
            failSteps env env.dbErrorMessage s4 := by
          rw [runDownloadJobWith_eq, hpipe]
        obtain ⟨hInvF, hstF, herrF, hurlF, hupF, hintF, htfF⟩ := failSteps_facts env _ hmid4
        rw [hrun]
        refine ⟨hInvF, by rw [htfF]; exact hmid4.tf,
          .inr ⟨hstF, by rw [herrF]; rfl, hurlF⟩, ?_, ?_, ?_⟩
        · intro _
          rw [hintF, hint4, hint3, hint0]
        · intro hpos
          exfalso
          rw [hintF, hint4, hint3, hint0] at hpos
          omega
        · intro k m hkm
          exact Option.noConfusion hkm
      case inl =>
      obtain ⟨s5, h50or, hmid5, hprog5, hfc5, hpw5, hup5, hint5, htmp5⟩ :=
        writeCheckpoint_spec env keys.length 50 s4 hmid4 (by omega)
      rcases h50or with h50 | h50
      case inr =>
        have hpipe : pipelineTry recompute env keys (startState env keys jid db now) =
            .error (env.dbErrorMessage, s5) := by
          simp only [pipelineTry, hcoll, hver, h30, h50]
        have hrun : runDownloadJobWith recompute env keys jid db now =
            failSteps env env.dbErrorMessage s5 := by
          rw [runDownloadJobWith_eq, hpipe]
        obtain ⟨hInvF, hstF, herrF, hurlF, hupF, hintF, htfF⟩ := failSteps_facts env _ hmid5
        rw [hrun]
        refine ⟨hInvF, by rw [htfF]; exact hmid5.tf,
          .inr ⟨hstF, by rw [herrF]; rfl, hurlF⟩, ?_, ?_, ?_⟩
        · intro _
          rw [hintF, hint5, hint4, hint3, hint0]
        · intro hpos
          exfalso
          rw [hintF, hint5, hint4, hint3, hint0] at hpos
          omega
        · intro k m hkm
          exact Option.noConfusion hkm
      case inl =>
      rcases uploadArchive_spec env keys.length s5 hmid5 (by omega) with
        ⟨s6, h75, hmid6, hprog6, hpw6, hup6, hint6⟩ | h75
      case inr =>
        have hpipe : pipelineTry recompute env keys (startState env keys jid db now) =
            .error (env.putErrorMessage, s5) := by
          simp only [pipelineTry, hcoll, hver, h30, h50, h75]
        have hrun : runDownloadJobWith recompute env keys jid db now =
            failSteps env env.putErrorMessage s5 := by
          rw [runDownloadJobWith_eq, hpipe]
        obtain ⟨hInvF, hstF, herrF, hurlF, hupF, hintF, htfF⟩ := failSteps_facts env _ hmid5
        rw [hrun]
        refine ⟨hInvF, by rw [htfF]; exact hmid5.tf,
          .inr ⟨hstF, by rw [herrF]; rfl, hurlF⟩, ?_, ?_, ?_⟩
        · intro _
          rw [hintF, hint5, hint4, hint3, hint0]
        · intro hpos
          exfalso
          rw [hintF, hint5, hint4, hint3, hint0] at hpos
          omega
        · intro k m hkm
          exact Option.noConfusion hkm
      case inl =>
      rcases publishResult_spec env keys.length s6 hmid6 (by omega) with
        ⟨url, s7, hps, hpub, hInv7, hst7, hurl7, herr7, hprog7, hpw7, hup7, hint7, htf7⟩ |
        ⟨mm, hps, hpub⟩
      case inr =>
        have hpipe : pipelineTry recompute env keys (startState env keys jid db now) =
            .error (mm, s6) := by
          simp only [pipelineTry, hcoll, hver, h30, h50, h75, hpub]
        have hrun : runDownloadJobWith recompute env keys jid db now =
            failSteps env mm s6 := by
          rw [runDownloadJobWith_eq, hpipe]
        obtain ⟨hInvF, hstF, herrF, hurlF, hupF, hintF, htfF⟩ := failSteps_facts env _ hmid6
        rw [hrun]
        refine ⟨hInvF, by rw [htfF]; exact hmid6.tf,
          .inr ⟨hstF, by rw [herrF]; rfl, hurlF⟩, ?_, ?_, ?_⟩
        · intro _
          rw [hintF, hint6, hint5, hint4, hint3, hint0]
        · intro hpos
          exfalso
          rw [hintF, hint6, hint5, hint4, hint3, hint0] at hpos
          omega
        · intro k m hkm
          exact Option.noConfusion hkm
      case inl =>
        have hpipe : pipelineTry recompute env keys (startState env keys jid db now) =
            .ok s7 := by
          simp only [pipelineTry, hcoll, hver, h30, h50, h75, hpub]
        have hrun : runDownloadJobWith recompute env keys jid db now =
            { s7 with tempFiles := [] } := by
          rw [runDownloadJobWith_eq, hpipe]
        rw [hrun]
        refine ⟨histInv_of_eq hInv7 rfl rfl,
          by show s7.job.totalFiles = keys.length; rw [htf7]; exact hmid6.tf,
          .inl ⟨hst7, ?_, herr7, hprog7, ?_⟩, ?_, ?_, ?_⟩
        · show s7.job.downloadUrl.isSome = true
          rw [hurl7]
          rfl
        · show s7.progressWrites = _
          rw [hpw7, hpw6, hpw5, hpw4, hpw3, hpw0, hmapeq]
          simp
        · intro _
          show s7.integrityFailures = 0
          rw [hint7, hint6, hint5, hint4, hint3, hint0]
        · intro hpos
          exfalso
          have : s7.integrityFailures = 0 := by
            rw [hint7, hint6, hint5, hint4, hint3, hint0]
          rw [show ({ s7 with tempFiles := [] } : RunState).integrityFailures =
            s7.integrityFailures from rfl, this] at hpos
          omega
        · intro k m hkm
          exact Option.noConfusion hkm
  · -- Collect fails at the first offending key.
    obtain ⟨sE, hcoll, hmidE, hupE, hintE, hkE⟩ :=
      collectFiles_err_spec env keys.length keys 0 (startState env keys jid db now)
        k0 m0 hC (by omega) h0 (le_of_eq hfc0) (by rw [hpr0]; exact Nat.zero_le _)
    have hpipe : pipelineTry recompute env keys (startState env keys jid db now) =
        .error ("Failed to collect file " ++ k0 ++ ": " ++ m0, sE) := by
      simp only [pipelineTry, hcoll]
    have hrun : runDownloadJobWith recompute env keys jid db now =
        failSteps env ("Failed to collect file " ++ k0 ++ ": " ++ m0) sE := by
      rw [runDownloadJobWith_eq, hpipe]
    obtain ⟨hInvF, hstF, herrF, hurlF, hupF, hintF, htfF⟩ := failSteps_facts env _ hmidE
    rw [hrun]
    refine ⟨hInvF, by rw [htfF]; exact hmidE.tf,
      .inr ⟨hstF, by rw [herrF]; rfl, hurlF⟩, ?_, ?_, ?_⟩
    · intro _
      rw [hintF, hintE, hint0]
    · intro hpos
      refine ⟨hstF, ?_⟩
      rw [hupF, hupE, hup0]
    · intro k m hkm
      obtain ⟨rfl, rfl⟩ : k0 = k ∧ m0 = m := by
        have h := Option.some.inj hkm
        exact ⟨congrArg Prod.fst h, congrArg Prod.snd h⟩
      exact ⟨hstF, herrF, hurlF, by rw [hupF, hupE, hup0]⟩

/-- Along a monotone history, every snapshot carries the totalFiles value of
the last one. -/
theorem monoHistory_all_totalFiles : ∀ (l : List JobStatus) (b : JobStatus) (n : Nat),
    monoHistory l = true → lastSnap l = some b → b.totalFiles = n →
    l.all (fun x => decide (x.totalFiles = n)) = true
  | [], _, _, _, h, _ => by simp [lastSnap] at h
  | [a], b, n, _, h, hb => by
    obtain rfl : a = b := by simpa [lastSnap] using h
    simp [hb]
  | a :: c :: rest, b, n, hm, h, hb => by
    have hac : monoStep a c = true ∧ monoHistory (c :: rest) = true := by
      simpa [monoHistory, chainCheck, Bool.and_eq_true] using hm
    have ih := monoHistory_all_totalFiles (c :: rest) b n hac.2
      (by simpa [lastSnap] using h) hb
    have hct : c.totalFiles = n := by
      have := List.all_eq_true.mp ih c (List.mem_cons_self c rest)
      simpa using this
    have hat : a.totalFiles = n := by
      have := hac.1
      simp only [monoStep, Bool.and_eq_true, decide_eq_true_eq] at this
      omega
    simp only [List.all_cons, Bool.and_eq_true, decide_eq_true_eq, List.all_eq_true]
    exact ⟨hat, hct, fun x hx =>
      of_decide_eq_true (List.all_eq_true.mp ih x (List.mem_cons_of_mem c hx))⟩

/-- First Collect-phase failure names a requested key. -/
theorem collectFailsAt_mem (env : Env) : ∀ (keys : List String) (k m : String),
    collectFailsAt env keys = some (k, m) → k ∈ keys
  | [], _, _, h => by cases h
  | key :: rest, k, m, h => by
    rcases hF : env.fetchObject key with m0 | data
    · simp only [collectFailsAt, hF] at h
      obtain ⟨rfl, rfl⟩ : key = k ∧ m0 = m := by simpa using h
      exact List.mem_cons_self key rest
    · simp only [collectFailsAt, hF] at h
      by_cases h0 : data.length = 0
      · rw [if_pos h0] at h
        obtain ⟨rfl, rfl⟩ : key = k ∧ ("File " ++ key ++ " is empty") = m := by
          simpa using h
        exact List.mem_cons_self key rest
      · rw [if_neg h0] at h
        exact List.mem_cons_of_mem key (collectFailsAt_mem env rest k m h)

/-- C5: a Collect-phase fetch failure (missing key or empty body) makes the
job terminate Failed with an error naming that key, with no resultUrl and
no object ever written under the destination key. -/
theorem collect_failure_fails_job (env : Env) (keys : List String) (jid : String)
    (db : Db) (now : Nat) (k m : String)
    (h : collectFailsAt env keys = some (k, m)) :
    (runDownloadJob env keys jid db now).job.status = .failed ∧
    (runDownloadJob env keys jid db now).job.error =
      some ("Failed to collect file " ++ k ++ ": " ++ m) ∧
    (runDownloadJob env keys jid db now).job.downloadUrl = none ∧
    (runDownloadJob env keys jid db now).uploads = [] ∧
    k ∈ keys := by
  have hf := (runDownloadJobWith_facts env.hashHex env keys jid db now).2.2.2.2.2 k m h
  exact ⟨hf.1, hf.2.1, hf.2.2.1, hf.2.2.2, collectFailsAt_mem env keys k m h⟩

/-- C6 (amended): in every run that ends Completed, the progress values
written are exactly Math.round((i+1)/n * 25) for i < n as the program
computes it in binary64 doubles — which matches exact rational half-up
rounding except where the double product falls on the other side of a
half, e.g. 14 instead of 15 at i+1 = 29, n = 50 — then the checkpoints 30,
50, 75 and finally 100 together with status Completed and a set
resultUrl; for n = 3 the sequence is 8, 17, 25, 30, 50, 75, 100. -/
theorem completed_progress_trace (env : Env) (keys : List String) (jid : String)
    (db : Db) (now : Nat)
    (h : (runDownloadJob env keys jid db now).job.status = .completed) :
    (runDownloadJob env keys jid db now).progressWrites =
      (List.range keys.length).map
        (fun k => jsRound25 (k + 1) keys.length) ++ [30, 50, 75, 100] ∧
    (runDownloadJob env keys jid db now).job.progress = 100 ∧
    (runDownloadJob env keys jid db now).job.downloadUrl.isSome = true := by
  rcases (runDownloadJobWith_facts env.hashHex env keys jid db now).2.2.1 with
    ⟨_, hurl, _, hprog, hpw⟩ | ⟨hst, _, _⟩
  · exact ⟨hpw, hprog, hurl⟩
  · exfalso
    have h' : (runDownloadJobWith env.hashHex env keys jid db now).job.status =
        .completed := h
    rw [hst] at h'
    exact JobState.noConfusion h'

/-- C7: along the whole observed history of a run, progress and
filesCompleted never decrease, filesCompleted never exceeds totalFiles,
and totalFiles keeps the value it got at creation (the key count). -/
theorem history_monotonicity (env : Env) (keys : List String) (jid : String)
    (db : Db) (now : Nat) :
    monoHistory (runDownloadJob env keys jid db now).history = true ∧
    countersBounded (runDownloadJob env keys jid db now).history = true ∧
    (runDownloadJob env keys jid db now).history.all
      (fun x => decide (x.totalFiles = keys.length)) = true := by
  have hf := runDownloadJobWith_facts env.hashHex env keys jid db now
  have hInv : HistInv (runDownloadJob env keys jid db now) := hf.1
  refine ⟨hInv.mono, hInv.bounded, ?_⟩
  exact monoHistory_all_totalFiles _ _ _ hInv.mono hInv.last_job hf.2.1

/-- C8: in every state of a run's history, at most one of resultUrl/error
is set, exactly the matching one is set in a terminal state, neither is
set while Queued or Processing, and no step ever leaves a terminal
status. -/
theorem result_exclusivity (env : Env) (keys : List String) (jid : String)
    (db : Db) (now : Nat) :
    exclusiveHistory (runDownloadJob env keys jid db now).history = true ∧
    terminalStable (runDownloadJob env keys jid db now).history = true := by
  have hInv : HistInv (runDownloadJob env keys jid db now) :=
    (runDownloadJobWith_facts env.hashHex env keys jid db now).1
  exact ⟨hInv.excl, hInv.stable⟩

/-- C9: with the checksum function the code actually uses at both Collect
and Verify time, the integrity-mismatch branch never fires in any run;
and for any recompute function at Verify time, a fired mismatch means the
job ends Failed with nothing ever uploaded to the destination store. -/
theorem integrity_branch_unreachable :
    (∀ (env : Env) (keys : List String) (jid : String) (db : Db) (now : Nat),
      (runDownloadJob env keys jid db now).integrityFailures = 0) ∧
    (∀ (recompute : List Nat → String) (env : Env) (keys : List String)
        (jid : String) (db : Db) (now : Nat),
      0 < (runDownloadJobWith recompute env keys jid db now).integrityFailures →
      (runDownloadJobWith recompute env keys jid db now).job.status = .failed ∧
      (runDownloadJobWith recompute env keys jid db now).uploads = []) := by
  constructor
  · intro env keys jid db now
    exact (runDownloadJobWith_facts env.hashHex env keys jid db now).2.2.2.1
      (fun _ => rfl)
  · intro recompute env keys jid db now h
    exact (runDownloadJobWith_facts recompute env keys jid db now).2.2.2.2.1 h

/-- Replacing the matching entry moves the new record to where the find
will hit it. -/
theorem find?_map_set : ∀ (tl : Cache) (jid : String) (j : JobStatus),
    (tl.find? (fun p => p.1 == jid)).isSome = true →
    (tl.map (fun p => if p.1 == jid then (jid, j) else p)).find?
      (fun p => p.1 == jid) = some (jid, j)
  | [], _, _, h => by simp at h
  | hd :: tl, jid, j, h => by
    by_cases hh : (hd.1 == jid) = true
    · rw [List.map_cons, if_pos hh]
      exact @List.find?_cons_of_pos _ (fun q => q.1 == jid) (jid, j) _ (by simp)
    · rw [List.map_cons, if_neg hh,
        @List.find?_cons_of_neg _ (fun q => q.1 == jid) hd _ hh]
      apply find?_map_set
      rwa [@List.find?_cons_of_neg _ (fun q => q.1 == jid) hd _ hh] at h

/-- Appending the new entry after a failed find makes the find hit it. -/
theorem find?_append_right : ∀ (tl : Cache) (jid : String) (j : JobStatus),
    tl.find? (fun p => p.1 == jid) = none →
    (tl ++ [(jid, j)]).find? (fun p => p.1 == jid) = some (jid, j)
  | [], jid, j, _ => by
    simp only [List.nil_append]
    exact @List.find?_cons_of_pos _ (fun q => q.1 == jid) (jid, j) _ (by simp)
  | hd :: tl, jid, j, h => by
    have hh : ¬ (hd.1 == jid) = true := by
      intro hcontra
      rw [@List.find?_cons_of_pos _ (fun q => q.1 == jid) hd _ hcontra] at h
      exact Option.noConfusion h
    rw [List.cons_append, @List.find?_cons_of_neg _ (fun q => q.1 == jid) hd _ hh]
    apply find?_append_right
    rwa [@List.find?_cons_of_neg _ (fun q => q.1 == jid) hd _ hh] at h

/-- Reading back the key just stored in the map yields the stored record. -/
theorem cacheGet_cacheSet (jobs : Cache) (jid : String) (j : JobStatus) :
    cacheGet (cacheSet jobs jid j) jid = some j := by
  unfold cacheGet cacheSet
  by_cases hs : (jobs.find? (fun p => p.1 == jid)).isSome
  · rw [if_pos hs, find?_map_set jobs jid j hs]
    rfl
  · rw [if_neg hs, find?_append_right jobs jid j
      (Option.not_isSome_iff_eq_none.mp hs)]
    rfl

/-- C10: the initiate handler head-checks every requested key and silently
drops the failures: it rejects with a validation error exactly when no
requested key survives, and otherwise creates the job over the surviving
subset, with totalFiles equal to its size. -/
theorem initiate_filters_missing_keys (headOk : String → Bool)
    (ks : List String) (jid : String) (now : Nat) (jobs : Cache) (db : Db) :
    ((downloadInitiate headOk ks jid now jobs db).1 = none ↔
      ks.filter headOk = []) ∧
    (∀ r, (downloadInitiate headOk ks jid now jobs db).1 = some r →
      r = { jobId := jid, status := .queued,
            totalFiles := (ks.filter headOk).length,
            subscribeUrl := "/v1/download/subscribe/" ++ jid,
            statusUrl := "/v1/download/status/" ++ jid }) ∧
    (ks.filter headOk ≠ [] →
      cacheGet (downloadInitiate headOk ks jid now jobs db).2.1 jid =
        some (createdJob jid (ks.filter headOk) now)) := by
  unfold downloadInitiate
  by_cases h : (ks.filter headOk).length = 0
  · rw [if_pos h]
    refine ⟨⟨fun _ => List.length_eq_zero.mp h, fun _ => rfl⟩, ?_, ?_⟩
    · intro r hr
      exact Option.noConfusion hr
    · intro hne
      exact absurd (List.length_eq_zero.mp h) hne
  · rw [if_neg h]
    refine ⟨⟨fun hc => Option.noConfusion hc,
      fun hc => absurd (hc ▸ rfl) h⟩, ?_, ?_⟩
    · intro r hr
      exact (Option.some.inj hr).symm
    · intro _
      exact cacheGet_cacheSet jobs jid (createdJob jid (ks.filter headOk) now)

/-- Head-check oracle used by the C10 witness. -/
def headOkDemo : String → Bool := fun k => k == "a.txt"

/-- Witness for C10: one of two requested keys survives the head check; the
created job holds exactly that key. -/
theorem initiate_filters_missing_keys_witness :
    ["missing.bin", "a.txt"].filter headOkDemo ≠ [] ∧
    cacheGet (downloadInitiate headOkDemo ["missing.bin", "a.txt"]
        "job-10" 0 [] []).2.1 "job-10" =
      some (createdJob "job-10" (["missing.bin", "a.txt"].filter headOkDemo) 0) :=
  ⟨by decide,
   (initiate_filters_missing_keys headOkDemo ["missing.bin", "a.txt"]
     "job-10" 0 [] []).2.2 (by decide)⟩

/-- C1: creating a job writes only the in-memory map — the handler returns
the durable store unchanged (there is no insert call), so immediately
after an accepted create the store has no record with the new job id. -/
theorem create_skips_durable_store :
    (∀ (headOk : String → Bool) (ks : List String) (jid : String) (now : Nat)
        (jobs : Cache) (db : Db),
      (downloadInitiate headOk ks jid now jobs db).2.2 = db) ∧
    (downloadInitiate (fun _ => true) ["invoice.pdf"] "job-1" 0 [] []).1.isSome
      = true ∧
    cacheGet (downloadInitiate (fun _ => true) ["invoice.pdf"] "job-1" 0 [] []).2.1
      "job-1" = some (createdJob "job-1" ["invoice.pdf"] 0) ∧
    dbGetJob (downloadInitiate (fun _ => true) ["invoice.pdf"] "job-1" 0 [] []).2.2
      "job-1" = none := by
  refine ⟨?_, rfl, rfl, rfl⟩
  intro headOk ks jid now jobs db
  simp only [downloadInitiate]
  split <;> rfl

/-- Environment of a run where every fetch succeeds and every store call
works; used by the concrete witnesses. -/
def demoEnv : Env :=
  { fetchObject := fun _ => .ok [7, 7]
    hashHex := fun _ => "digest"
    dbWriteOk := fun _ => true
    dbErrorMessage := "SQLITE_ERROR: database is locked"
    putOk := true
    putErrorMessage := "PutObject failed"
    presign := .ok "http://localhost:9000/downloads/archive.zip" }

/-- Environment whose third durable write (the unprotected progress-30
checkpoint of a one-key job) throws. -/
def dbFailEnv : Env := { demoEnv with dbWriteOk := fun w => !(w == 2) }

/-- C2: a durable-write failure at the progress-30 checkpoint is not caught
— the job that would have completed ends Failed with the database error as
its cause, contradicting the logged-only contract that holds at the other
update sites. -/
theorem checkpoint_write_failure_aborts :
    (runDownloadJob dbFailEnv ["a.txt"] "job-2" [] 0).job.status = .failed ∧
    (runDownloadJob dbFailEnv ["a.txt"] "job-2" [] 0).job.error =
      some "SQLITE_ERROR: database is locked" ∧
    (runDownloadJob demoEnv ["a.txt"] "job-2" [] 0).job.status = .completed := by
  refine ⟨rfl, rfl, rfl⟩

/-- A completed job row present only in the durable store. -/
def storedRecord : JobRecord :=
  { job_id := "job-9"
    status := .completed
    file_keys := ["a.txt"]
    progress := 100
    files_completed := 1
    total_files := 1
    download_url := some "http://localhost:9000/downloads/job-9.zip"
    error := none
    created_at := 0
    updated_at := 7 }

/-- C3 counterexample: the durable store holds job-9 but the cache does
not, and the status endpoint answers "Job not found" — so the pull
endpoint does not perform the cache-then-durable get(id) the claim
describes. -/
theorem status_endpoint_misses_durable_only_job :
    dbGetJob [storedRecord] "job-9" = some storedRecord ∧
    downloadStatus ([] : Cache) "job-9" = none := ⟨rfl, rfl⟩

/-- C3 amended: the pull endpoint reads only the in-memory map and reports
not-found whenever the cache lacks the id, regardless of the durable
store; the cache-then-durable lookup with cache population happens in the
subscribe endpoint's attach instead. -/
theorem status_endpoint_reads_cache_only (jobs : Cache) (db : Db) (jid : String) :
    downloadStatus jobs jid = (cacheGet jobs jid).map mkStatusResponse ∧
    (∀ j, cacheGet jobs jid = some j → subscribeLookup jobs db jid = (some j, jobs)) ∧
    (cacheGet jobs jid = none → ∀ r, dbGetJob db jid = some r →
      subscribeLookup jobs db jid =
        (some (recordToJobStatus r), cacheSet jobs jid (recordToJobStatus r))) ∧
    (cacheGet jobs jid = none → dbGetJob db jid = none →
      subscribeLookup jobs db jid = (none, jobs)) := by
  refine ⟨rfl, ?_, ?_, ?_⟩
  · intro j hj
    unfold subscribeLookup
    rw [hj]
  · intro hc r hr
    unfold subscribeLookup
    rw [hc, hr]
  · intro hc hr
    unfold subscribeLookup
    rw [hc, hr]

/-- Witness for the amended C3: attaching to job-9 with a cold cache
rehydrates it from the durable store. -/
theorem status_endpoint_reads_cache_only_witness :
    cacheGet ([] : Cache) "job-9" = none ∧
    subscribeLookup ([] : Cache) [storedRecord] "job-9" =
      (some (recordToJobStatus storedRecord),
       cacheSet ([] : Cache) "job-9" (recordToJobStatus storedRecord)) :=
  ⟨rfl, (status_endpoint_reads_cache_only ([] : Cache) [storedRecord]
    "job-9").2.2.1 rfl storedRecord rfl⟩

/-- A completed job as it sits in the in-memory map. -/
def finishedJob : JobStatus :=
  { jobId := "job-4"
    status := .completed
    fileKeys := ["a.txt"]
    progress := 100
    filesCompleted := 1
    totalFiles := 1
    downloadUrl := some "http://localhost:9000/downloads/job-4.zip"
    error := none
    createdAt := 0
    updatedAt := 9 }

/-- C4 counterexample: a subscriber attaching after job-4 completed gets
exactly one event, named "progress" and carrying no resultUrl, while the
pull endpoint returns the resultUrl; the polling tick then sees no
progress/status change, emits nothing and never closes — no `complete`
event is ever delivered. -/
theorem late_subscriber_no_complete_event :
    (downloadStatus [("job-4", finishedJob)] "job-4").map
      (fun r => r.downloadUrl) =
      some (some "http://localhost:9000/downloads/job-4.zip") ∧
    (subscribeAttach [("job-4", finishedJob)] [] "job-4").1 =
      [{ event := "progress", jobId := some "job-4", status := some .completed,
         progress := some 100, filesCompleted := some 1, totalFiles := some 1 }] ∧
    subscribePollTick [("job-4", finishedJob)] "job-4" 100 .completed =
      (none, some (100, .completed), false) := ⟨rfl, rfl, rfl⟩

/-- C4 amended: a push subscriber attaching to an already-Completed job
receives only the immediate snapshot event, which is named "progress" and
carries status/progress/counters but no resultUrl; the poll loop emits no
further event while the record is unchanged, so no `complete` event with
the pull endpoint's resultUrl is delivered. -/
theorem late_subscriber_snapshot_only (jobs : Cache) (db : Db) (jid : String)
    (j : JobStatus) (hc : cacheGet jobs jid = some j)
    (hst : j.status = .completed) :
    (subscribeAttach jobs db jid).1 =
      [{ event := "progress", jobId := some j.jobId, status := some j.status,
         progress := some j.progress, filesCompleted := some j.filesCompleted,
         totalFiles := some j.totalFiles }] ∧
    (subscribeAttach jobs db jid).1.map (fun e => e.downloadUrl) = [none] ∧
    (subscribeAttach jobs db jid).1.map (fun e => e.event) = ["progress"] ∧
    subscribePollTick jobs jid j.progress j.status =
      (none, some (j.progress, j.status), false) ∧
    (downloadStatus jobs jid).map (fun r => r.downloadUrl) =
      some j.downloadUrl := by
  have hatt : subscribeAttach jobs db jid =
      ([{ event := "progress", jobId := some j.jobId, status := some j.status,
          progress := some j.progress, filesCompleted := some j.filesCompleted,
          totalFiles := some j.totalFiles }], jobs, some (j.progress, j.status)) := by
    unfold subscribeAttach subscribeLookup
    rw [hc]
  refine ⟨by rw [hatt], by rw [hatt]; rfl, by rw [hatt]; rfl, ?_, ?_⟩
  · simp only [subscribePollTick, hc]
    rw [if_neg (by simp)]
  · unfold downloadStatus
    rw [hc]
    rfl

/-- Witness for the amended C4: the concrete completed job-4. -/
theorem late_subscriber_snapshot_only_witness :
    cacheGet [("job-4", finishedJob)] "job-4" = some finishedJob ∧
    ((subscribeAttach [("job-4", finishedJob)] [] "job-4").1.map
        (fun e => e.event) = ["progress"] ∧
      subscribePollTick [("job-4", finishedJob)] "job-4"
        finishedJob.progress finishedJob.status =
        (none, some (finishedJob.progress, finishedJob.status), false)) := by
  have h := late_subscriber_snapshot_only [("job-4", finishedJob)] []
    "job-4" finishedJob rfl rfl
  exact ⟨rfl, h.2.2.1, h.2.2.2.1⟩

/-- Environment in which the second requested key is missing from the
source bucket. -/
def missEnv : Env := { demoEnv with
  fetchObject := fun k =>
    if k == "a.txt" then .ok [7, 7]
    else .error "NoSuchKey: The specified key does not exist." }

/-- Witness for C5: the two-key job whose second key is missing ends
Failed naming that key, with no resultUrl and no upload. -/
theorem collect_failure_fails_job_witness :
    collectFailsAt missEnv ["a.txt", "b.txt"] =
      some ("b.txt", "NoSuchKey: The specified key does not exist.") ∧
    ((runDownloadJob missEnv ["a.txt", "b.txt"] "job-5" [] 0).job.status = .failed ∧
     (runDownloadJob missEnv ["a.txt", "b.txt"] "job-5" [] 0).job.error =
       some ("Failed to collect file " ++ "b.txt" ++ ": " ++
         "NoSuchKey: The specified key does not exist.") ∧
     (runDownloadJob missEnv ["a.txt", "b.txt"] "job-5" [] 0).job.downloadUrl
       = none ∧
     (runDownloadJob missEnv ["a.txt", "b.txt"] "job-5" [] 0).uploads = [] ∧
     "b.txt" ∈ ["a.txt", "b.txt"]) :=
  ⟨rfl, collect_failure_fails_job missEnv ["a.txt", "b.txt"] "job-5" [] 0
    "b.txt" "NoSuchKey: The specified key does not exist." rfl⟩

/-- Witness for C6: a successful three-key run writes exactly the progress
sequence 8, 17, 25, 30, 50, 75, 100. -/
theorem completed_progress_trace_witness :
    (runDownloadJob demoEnv ["a.txt", "b.txt", "c.txt"] "job-6" [] 0).job.status
      = .completed ∧
    (runDownloadJob demoEnv ["a.txt", "b.txt", "c.txt"] "job-6" [] 0).progressWrites
      = [8, 17, 25, 30, 50, 75, 100] := by
  refine ⟨rfl, ?_⟩
  have h := (completed_progress_trace demoEnv ["a.txt", "b.txt", "c.txt"]
    "job-6" [] 0 rfl).1
  rw [h]
  rfl

/-- Fifty requested keys, all present in the source bucket. -/
def keys50 : List String := List.replicate 50 "a.txt"

/-- C6 counterexample: the successful 50-key run ends Completed, but its
29th Collect-phase progress write is 14 — the binary64 value of
(29/50) * 25 lies just below 14.5 — while the claimed exact rounding
round(29/50 * 25) = round(14.5) is 15, so the written sequence is not the
claimed round(i/n * 25) sequence. -/
theorem fifty_key_trace_breaks_exact_rounding :
    (runDownloadJob demoEnv keys50 "job-6c" [] 0).job.status = .completed ∧
    (runDownloadJob demoEnv keys50 "job-6c" [] 0).progressWrites.getD 28 0 = 14 ∧
    roundHalfUp (25 * 29) 50 = 15 ∧
    ((List.range keys50.length).map
        (fun k => roundHalfUp (25 * (k + 1)) keys50.length) ++
      [30, 50, 75, 100]).getD 28 0 = 15 ∧
    (runDownloadJob demoEnv keys50 "job-6c" [] 0).progressWrites ≠
      (List.range keys50.length).map
        (fun k => roundHalfUp (25 * (k + 1)) keys50.length) ++
      [30, 50, 75, 100] := by
  refine ⟨rfl, rfl, rfl, rfl, ?_⟩
  intro hcontra
  have h14 : (runDownloadJob demoEnv keys50 "job-6c" [] 0).progressWrites.getD
      28 0 = 14 := rfl
  rw [hcontra] at h14
  have h15 : ((List.range keys50.length).map
      (fun k => roundHalfUp (25 * (k + 1)) keys50.length) ++
      [30, 50, 75, 100]).getD 28 0 = 15 := rfl
  rw [h14] at h15
  exact absurd h15 (by decide)

/-- A Verify-phase checksum function that disagrees with the Collect-phase
one, for the C9 counterfactual witness. -/
def mismatchHash : List Nat → String := fun _ => "other-digest"

/-- Witness for C9: under a disagreeing recompute function the integrity
branch fires, the job ends Failed and nothing is uploaded. -/
theorem integrity_branch_unreachable_witness :
    0 < (runDownloadJobWith mismatchHash demoEnv ["a.txt"] "job-9w" [] 0).integrityFailures ∧
    ((runDownloadJobWith mismatchHash demoEnv ["a.txt"] "job-9w" [] 0).job.status
        = .failed ∧
     (runDownloadJobWith mismatchHash demoEnv ["a.txt"] "job-9w" [] 0).uploads = []) :=
  ⟨by decide,
   integrity_branch_unreachable.2 mismatchHash demoEnv ["a.txt"] "job-9w" [] 0
     (by decide)⟩

end DownloadSvc
